import Mathlib

/-!
Verification of the cache core of hungpdn/grule-plus.

This file gives a shallow embedding of the five eviction policies
(lru, lfu, arc, twoq, random) and of the consistent-hash ring, translated
from the Go sources under internal/cache and internal/consistenthash, and
proves or refutes the stated claims about them.

Modelling conventions:
- Keys and values (Go interface values) are Nat.
- Instants and durations (Go int64 UnixNano / time.Duration) are Int; every
  operation that reads the clock takes the current instant as an argument.
- A Go map is an association list; writing models in-place replacement and
  deleting removes every pair with that key (a Go map holds one).
- The eviction callback is Option Nat (none models a nil func value); each
  invocation of the callback is appended to a log of (key, value, event).
- Operations that can panic at runtime return Option; none models the panic.
- The sweeper goroutine scheduling itself is not modelled, only the state
  transition of one sweep pass and the stop-channel lifecycle.
-/

set_option autoImplicit false

/-- Event codes from internal/cache/common (iota enumeration). -/
def ExpirationEvent : Nat := 0

/-- Event code for a capacity eviction. -/
def EvictionEvent : Nat := 1

/-- Event code for an explicit delete. -/
def DeleteEvent : Nat := 2

/-- Event code for Clear/Close. -/
def ClearEvent : Nat := 3

/-- One invocation of the eviction callback: (key, value, event code). -/
abbrev Ev := Nat × Nat × Nat

/-- State of a Go channel used as the sweeper stop signal. -/
inductive ChanSt where
  | opened
  | closedCh
  deriving Repr, DecidableEq

/-- Go close(ch). none models the runtime panic raised when ch is nil or
already closed. -/
def closeChan : Option ChanSt → Option (Option ChanSt)
  | some ChanSt.opened => some (some ChanSt.closedCh)
  | _ => none

/-- Read of a Go map modelled as an association list. -/
def lookupA {α : Type} : List (Nat × α) → Nat → Option α
  | [], _ => none
  | (k', v) :: t, k => if k' = k then some v else lookupA t k

/-- Write m[k] = v on a Go map: replace in place, or append when absent. -/
def setA {α : Type} : List (Nat × α) → Nat → α → List (Nat × α)
  | [], k, v => [(k, v)]
  | (k', v') :: t, k, v => if k' = k then (k, v) :: t else (k', v') :: setA t k v

/-- Go delete(m, k). -/
def delA {α : Type} (m : List (Nat × α)) (k : Nat) : List (Nat × α) :=
  m.filter (fun p => p.1 != k)

/-! ## LRU policy (internal/cache/lru) -/
/-- Entry of the LRU cache: key, value, expiration (0 = never expires). -/
structure LruEntry where
  key : Nat
  value : Nat
  expiration : Int
  deriving Repr, DecidableEq

/-- LRU cache state. ll is the recency list, front (most recent) first. The
entries map indexes each key to its unique list element, so it is modelled by
key search in ll; ll = none models the nil map and nil list left by
Clear/Close. Callback invocations are recorded in log. -/
structure LruCache where
  maxEntries : Int
  ll : Option (List LruEntry)
  onEvicted : Option Nat
  defaultTTL : Int
  cleanupInterval : Int
  stopChan : Option ChanSt
  log : List Ev
  deriving Repr, DecidableEq

/-- lru.New. -/
def lruNew (maxEntries cleanupInterval : Int) : LruCache :=
  { maxEntries := maxEntries, ll := some [], onEvicted := none, defaultTTL := 0,
    cleanupInterval := cleanupInterval, stopChan := some ChanSt.opened, log := [] }

/-- Invocation of the callback when one is registered (if c.onEvicted != nil). -/
def fireLru (s : LruCache) (k v ev : Nat) : LruCache :=
  if s.onEvicted.isSome then { s with log := s.log ++ [(k, v, ev)] } else s

/-- Expiration computed by lru.Cache.Set: an explicit positive TTL is capped
by the default TTL when one is configured; a non-positive TTL falls back to
the default TTL (0 meaning never). -/
def lruExpiration (defaultTTL dur now : Int) : Int :=
  if dur > 0 then
    if defaultTTL > 0 ∧ dur > defaultTTL then now + defaultTTL else now + dur
  else
    if defaultTTL > 0 then now + defaultTTL else 0

/-- lru.Cache.removeElement: drops the element from ll, deletes its key from
the map and fires the callback. l is the current list held in s.ll. -/
def lruRemoveElement (s : LruCache) (l : List LruEntry) (e : LruEntry) (ev : Nat) :
    LruCache :=
  fireLru { s with ll := some (l.filter (fun x => x.key != e.key)) } e.key e.value ev

/-- lru.Cache.RemoveOldest: evicts the back (least recent) element. -/
def lruRemoveOldest (s : LruCache) : LruCache :=
  match s.ll with
  | none => s
  | some l =>
    match l.getLast? with
    | none => s
    | some e => lruRemoveElement s l e EvictionEvent

/-- lru.Cache.Set: reinitializes a nil map, computes the (possibly capped)
expiration, moves an existing key to the front updating it in place, and
otherwise evicts the oldest entry when at capacity before inserting. -/
def lruSet (s : LruCache) (k v : Nat) (dur now : Int) : LruCache :=
  let l := (s.ll).getD []
  let exp := lruExpiration s.defaultTTL dur now
  match l.find? (fun e => e.key == k) with
  | some _ =>
    { s with ll := some ({ key := k, value := v, expiration := exp } ::
        l.filter (fun e => e.key != k)) }
  | none =>
    let s1 := if s.maxEntries ≠ 0 ∧ (l.length : Int) ≥ s.maxEntries then
        lruRemoveOldest { s with ll := some l }
      else { s with ll := some l }
    { s1 with ll := some ({ key := k, value := v, expiration := exp } ::
        (s1.ll).getD []) }

/-- lru.Cache.Get: a hit on an expired entry removes it with ExpirationEvent
and misses; a live hit moves the entry to the front. -/
def lruGet (s : LruCache) (k : Nat) (now : Int) : Option Nat × LruCache :=
  match s.ll with
  | none => (none, s)
  | some l =>
    match l.find? (fun e => e.key == k) with
    | none => (none, s)
    | some e =>
      if e.expiration > 0 ∧ now > e.expiration then
        (none, lruRemoveElement s l e ExpirationEvent)
      else
        (some e.value, { s with ll := some (e :: l.filter (fun x => x.key != e.key)) })

/-- lru.Cache.Len: the raw list length, with no expiration filtering. -/
def lruLen (s : LruCache) : Nat :=
  match s.ll with
  | none => 0
  | some l => l.length

/-- lru.Cache.Keys: every key in the entries map, with no expiration
filtering. -/
def lruKeys (s : LruCache) : List Nat :=
  ((s.ll).getD []).map (fun e => e.key)

/-- lru.Cache.Clear: fires ClearEvent per stored entry, then nils the map and
the list. -/
def lruClear (s : LruCache) : LruCache :=
  let entries := (s.ll).getD []
  let s1 := if s.onEvicted.isSome then
      { s with log := s.log ++ entries.map (fun e => (e.key, e.value, ClearEvent)) }
    else s
  { s1 with ll := none }

/-- lru.Cache.StopCleanup: closes stopChan when non-nil but never nils it, so
a second call closes an already-closed channel (none models that panic). -/
def lruStopCleanup (s : LruCache) : Option LruCache :=
  match s.stopChan with
  | none => some s
  | some c => (closeChan (some c)).map (fun c' => { s with stopChan := c' })

/-- lru.Cache.SetEvictedFunc: returns a non-nil error (modelled true) and
leaves the callback unchanged when one is already registered. -/
def lruSetEvictedFunc (s : LruCache) (f : Nat) : Bool × LruCache :=
  match s.onEvicted with
  | some _ => (true, s)
  | none => (false, { s with onEvicted := some f })

/-! ## LFU policy (internal/cache/lfu) -/
/-- Entry of the LFU cache: key, value, access frequency, expiration. The Go
node pointer into the frequency bucket is modelled by locating the key in the
bucket. -/
structure LfuEntry where
  key : Nat
  value : Nat
  freq : Nat
  expiration : Int
  deriving Repr, DecidableEq

/-- LFU cache state. freqList maps a frequency to the keys of its bucket in
insertion order (PushBack appends, Front is the head). none for entries or
freqList models the nil maps left by Clear/Close. -/
structure LfuCache where
  maxEntries : Int
  entries : Option (List (Nat × LfuEntry))
  freqList : Option (List (Nat × List Nat))
  minFreq : Nat
  onEvicted : Option Nat
  defaultTTL : Int
  cleanupInterval : Int
  stopCleanupCh : Option ChanSt
  log : List Ev
  deriving Repr, DecidableEq

/-- lfu.New. -/
def lfuNew (maxEntries cleanupInterval : Int) : LfuCache :=
  { maxEntries := maxEntries, entries := some [], freqList := some [], minFreq := 0,
    onEvicted := none, defaultTTL := 0, cleanupInterval := cleanupInterval,
    stopCleanupCh := some ChanSt.opened, log := [] }

/-- Invocation of the callback when one is registered. -/
def fireLfu (s : LfuCache) (k v ev : Nat) : LfuCache :=
  if s.onEvicted.isSome then { s with log := s.log ++ [(k, v, ev)] } else s

/-- Expiration computed by lfu.Cache.Set, identical capping rule to lru. -/
def lfuExpiration (defaultTTL dur now : Int) : Int :=
  if dur > 0 then
    if defaultTTL > 0 ∧ dur > defaultTTL then now + defaultTTL else now + dur
  else
    if defaultTTL > 0 then now + defaultTTL else 0

/-- lfu.Cache.incrementFrequency: moves the entry from bucket freq to bucket
freq+1, deleting the emptied bucket and advancing minFreq when needed, and
records the changed frequency back in the entries map (the Go code mutates
the shared entry struct in place). none models the nil dereference when the
bucket for entry.freq is missing. -/
def lfuIncrementFrequency (s : LfuCache) (e : LfuEntry) : Option LfuCache :=
  match s.freqList with
  | none => none
  | some fl =>
    match lookupA fl e.freq with
    | none => none
    | some bucket =>
      let bucket' := bucket.filter (fun x => x != e.key)
      let fl1 := if bucket'.length = 0 then delA fl e.freq else setA fl e.freq bucket'
      let mf1 := if bucket'.length = 0 ∧ s.minFreq = e.freq then s.minFreq + 1
        else s.minFreq
      let f' := e.freq + 1
      let fl2 := match lookupA fl1 f' with
        | none => setA fl1 f' [e.key]
        | some b2 => setA fl1 f' (b2 ++ [e.key])
      let ents' := match s.entries with
        | some m => some (setA m e.key { e with freq := f' })
        | none => none
      some { s with freqList := some fl2, minFreq := mf1, entries := ents' }

/-- lfu.Cache.evict: removes the oldest entry of the minimum-frequency bucket;
a nil bucket returns silently, an empty one would dereference a nil Front
(none models that panic). -/
def lfuEvict (s : LfuCache) : Option LfuCache :=
  match s.freqList with
  | none => some s
  | some fl =>
    match lookupA fl s.minFreq with
    | none => some s
    | some [] => none
    | some (oldest :: rest) =>
      match lookupA ((s.entries).getD []) oldest with
      | none => none
      | some oe =>
        let fl1 := if rest.length = 0 then delA fl s.minFreq else setA fl s.minFreq rest
        let s1 := { s with freqList := some fl1,
                           entries := some (delA ((s.entries).getD []) oldest) }
        some (fireLfu s1 oldest oe.value EvictionEvent)

/-- lfu.Cache.Set: updates an existing entry in place and bumps its
frequency; otherwise evicts when len(entries) has reached maxEntries (note:
also when maxEntries is 0) and inserts at frequency 1, resetting minFreq.
none models the nil-map writes that panic after Clear/Close. -/
def lfuSet (s : LfuCache) (k v : Nat) (dur now : Int) : Option LfuCache :=
  let exp := lfuExpiration s.defaultTTL dur now
  let ents := (s.entries).getD []
  match lookupA ents k with
  | some e =>
    let e1 := { e with value := v, expiration := exp }
    lfuIncrementFrequency { s with entries := some (setA ents k e1) } e1
  | none =>
    let step1 := if (ents.length : Int) ≥ s.maxEntries then lfuEvict s else some s
    match step1 with
    | none => none
    | some s1 =>
      match s1.entries with
      | none => none
      | some ents1 =>
        match s1.freqList with
        | none => none
        | some fl =>
          let e : LfuEntry := { key := k, value := v, freq := 1, expiration := exp }
          let fl1 := match lookupA fl 1 with
            | none => setA fl 1 [k]
            | some b => setA fl 1 (b ++ [k])
          some { s1 with entries := some (setA ents1 k e), freqList := some fl1,
                         minFreq := 1 }

/-- lfu.Cache.removeEntry: removes the entry from its frequency bucket and
fires the callback, doing nothing at all when the bucket is missing; the
caller deletes the key from the entries map separately. -/
def lfuRemoveEntry (s : LfuCache) (e : LfuEntry) (ev : Nat) : LfuCache :=
  match s.freqList with
  | none => s
  | some fl =>
    match lookupA fl e.freq with
    | none => s
    | some bucket =>
      let bucket' := bucket.filter (fun x => x != e.key)
      let fl1 := if bucket'.length = 0 then delA fl e.freq else setA fl e.freq bucket'
      let mf1 := if bucket'.length = 0 ∧ e.freq = s.minFreq then 1 else s.minFreq
      fireLfu { s with freqList := some fl1, minFreq := mf1 } e.key e.value ev

/-- lfu.Cache.Get: a hit on an expired entry removes it (bucket, then map)
firing ExpirationEvent; a live hit bumps the frequency. -/
def lfuGet (s : LfuCache) (k : Nat) (now : Int) : Option (Option Nat × LfuCache) :=
  let ents := (s.entries).getD []
  match lookupA ents k with
  | none => some (none, s)
  | some e =>
    if e.expiration > 0 ∧ now > e.expiration then
      let s1 := lfuRemoveEntry s e ExpirationEvent
      some (none, { s1 with entries := some (delA ((s1.entries).getD []) k) })
    else
      (lfuIncrementFrequency s e).map (fun s1 => (some e.value, s1))

/-- lfu.Cache.Len: the raw entries-map size, with no expiration filtering. -/
def lfuLen (s : LfuCache) : Nat :=
  match s.entries with
  | none => 0
  | some m => m.length

/-- lfu.Cache.Keys: every key in the entries map, with no expiration
filtering. -/
def lfuKeys (s : LfuCache) : List Nat :=
  ((s.entries).getD []).map (fun p => p.1)

/-- lfu.Cache.Clear: fires ClearEvent per entry and nils both maps. -/
def lfuClear (s : LfuCache) : LfuCache :=
  let ents := (s.entries).getD []
  let s1 := if s.onEvicted.isSome then
      { s with log := s.log ++ ents.map (fun p => (p.2.key, p.2.value, ClearEvent)) }
    else s
  { s1 with entries := none, freqList := none, minFreq := 0 }

/-- lfu.Cache.StopCleanup: closes the stop channel when non-nil but never
nils it, so a second call closes an already-closed channel (none models the
panic). -/
def lfuStopCleanup (s : LfuCache) : Option LfuCache :=
  match s.stopCleanupCh with
  | none => some s
  | some c => (closeChan (some c)).map (fun c' => { s with stopCleanupCh := c' })

/-- lfu.Cache.SetEvictedFunc: rejects a second registration with a non-nil
error, leaving the stored callback unchanged. -/
def lfuSetEvictedFunc (s : LfuCache) (f : Nat) : Bool × LfuCache :=
  match s.onEvicted with
  | some _ => (true, s)
  | none => (false, { s with onEvicted := some f })

/-! ## Random policy (internal/cache/random) -/
/-- Entry of the random cache. -/
structure RandomEntry where
  key : Nat
  value : Nat
  expiration : Int
  deriving Repr, DecidableEq

/-- Random cache state: the entries map plus the parallel keys slice used for
uniform random selection. -/
structure RandomCache where
  maxEntries : Int
  entries : List (Nat × RandomEntry)
  keys : List Nat
  onEvicted : Option Nat
  defaultTTL : Int
  cleanupInterval : Int
  stopChan : Option ChanSt
  log : List Ev
  deriving Repr, DecidableEq

/-- random.New. -/
def randomNew (maxEntries cleanupInterval : Int) : RandomCache :=
  { maxEntries := maxEntries, entries := [], keys := [], onEvicted := none,
    defaultTTL := 0, cleanupInterval := cleanupInterval,
    stopChan := some ChanSt.opened, log := [] }

/-- Invocation of the callback when one is registered. -/
def fireRandom (s : RandomCache) (k v ev : Nat) : RandomCache :=
  if s.onEvicted.isSome then { s with log := s.log ++ [(k, v, ev)] } else s

/-- Expiration computed by random.Cache.Set: an explicit positive TTL is used
unchanged; the default TTL applies only as a fallback. -/
def randomExpiration (defaultTTL dur now : Int) : Int :=
  if dur > 0 then now + dur
  else if defaultTTL > 0 then now + defaultTTL else 0

/-- random.Cache.evictRandom: picks keys[rand.Intn(len(keys))], fires the
callback, deletes the entry, and removes the slice slot by swapping in the
last element and truncating. r models the value drawn by rand.Intn. -/
def randomEvictRandom (s : RandomCache) (r : Nat) : RandomCache :=
  if s.keys.length = 0 then s
  else
    let i := r % s.keys.length
    let k := s.keys.getD i 0
    match lookupA s.entries k with
    | none => s
    | some e =>
      let s1 := fireRandom s e.key e.value EvictionEvent
      { s1 with entries := delA s.entries k,
                keys := (s.keys.set i (s.keys.getD (s.keys.length - 1) 0)).dropLast }

/-- random.Cache.Set: updates an existing entry in place; otherwise appends
the entry and its key, then evicts one random victim when maxEntries > 0 is
exceeded. -/
def randomSet (s : RandomCache) (k v : Nat) (dur now : Int) (r : Nat) : RandomCache :=
  let exp := randomExpiration s.defaultTTL dur now
  match lookupA s.entries k with
  | some e => { s with entries := setA s.entries k { e with value := v, expiration := exp } }
  | none =>
    let s1 := { s with
      entries := setA s.entries k { key := k, value := v, expiration := exp },
      keys := s.keys ++ [k] }
    if s.maxEntries > 0 ∧ (s1.entries.length : Int) > s.maxEntries then
      randomEvictRandom s1 r
    else s1

/-- random.Cache.Get: a read-only lookup under the shared lock; an expired
entry yields (nil, false) with no removal and no notification, so the state
is untouched and only the value is returned. -/
def randomGet (s : RandomCache) (k : Nat) (now : Int) : Option Nat :=
  match lookupA s.entries k with
  | none => none
  | some e => if e.expiration > 0 ∧ now > e.expiration then none else some e.value

/-- random.Cache.Keys: walks the keys slice and keeps keys whose entry is
present and live, without removing expired ones. -/
def randomKeys (s : RandomCache) (now : Int) : List Nat :=
  s.keys.filterMap (fun k =>
    match lookupA s.entries k with
    | some e => if e.expiration = 0 ∨ now ≤ e.expiration then some k else none
    | none => none)

/-- random.Cache.Len: counts live entries only, without removing expired
ones. -/
def randomLen (s : RandomCache) (now : Int) : Nat :=
  (s.entries.filter (fun p =>
    if p.2.expiration = 0 ∨ now ≤ p.2.expiration then true else false)).length

/-- random.Cache.Clear: fires ClearEvent per entry, then resets the map and
the keys slice to fresh empty values. -/
def randomClear (s : RandomCache) : RandomCache :=
  let s1 := if s.onEvicted.isSome then
      { s with log := s.log ++ s.entries.map (fun p => (p.2.key, p.2.value, ClearEvent)) }
    else s
  { s1 with entries := [], keys := [] }

/-- random.Cache.stopCleanup (also reached via StopCleanup): closes the stop
channel only when cleanupInterval > 0 and the channel is non-nil, then nils
it, so the stop path is idempotent. -/
def randomStopCleanup (s : RandomCache) : Option RandomCache :=
  if s.cleanupInterval > 0 ∧ s.stopChan.isSome then
    (closeChan s.stopChan).map (fun _ => { s with stopChan := none })
  else some s

/-- random.Cache.SetEvictedFunc: unconditionally overwrites the stored
callback and returns a nil error. -/
def randomSetEvictedFunc (s : RandomCache) (f : Nat) : Bool × RandomCache :=
  (false, { s with onEvicted := some f })

/-! ## Shared container/list model for the 2Q and ARC policies

The twoq and arc caches store *entry values inside container/list elements
and keep a map from key to a specific element. Distinct elements can wrap
the same entry (this is exactly what happens when those caches re-push an
entry that is already in A2/T2), so elements and entries are modelled
separately: an entry store indexed by entry id, and lists of element
references, each carrying its own element id plus the id of the entry it
wraps. -/
/-- Entry payload shared by the twoq and arc caches. -/
structure Ent where
  key : Nat
  value : Nat
  expiration : Int
  deriving Repr, DecidableEq

/-- Reference to one container/list element: its identity and the entry it
wraps. -/
structure ElemRef where
  id : Nat
  ent : Nat
  deriving Repr, DecidableEq

/-- Go (l *list.List).Remove(e): removes e from l when e is an element of l,
and returns e.Value in every case; for these caches e.Value is always a
non-nil *entry, modelled as some of the entry id. -/
def listRemove (l : List ElemRef) (e : ElemRef) : List ElemRef × Option Nat :=
  (l.filter (fun x => x.id != e.id), some e.ent)

/-- Go (l *list.List).MoveToFront(e): moves e to the front when e is in l,
otherwise does nothing. -/
def moveToFront (l : List ElemRef) (e : ElemRef) : List ElemRef :=
  if l.any (fun x => x.id == e.id) then e :: l.filter (fun x => x.id != e.id) else l

/-! ## 2Q policy (internal/cache/twoq) -/
/-- 2Q cache state: FIFO queue A1, LRU queue A2 and ghost queue B hold
element references (front first); ents is the entry store and emap the
entries map from key to the element the map currently points at. -/
structure TwoQ where
  maxEntries : Int
  ents : List (Nat × Ent)
  a1 : List ElemRef
  a2 : List ElemRef
  b : List ElemRef
  kin : Int
  emap : List (Nat × ElemRef)
  onEvicted : Option Nat
  defaultTTL : Int
  cleanupInterval : Int
  stopChan : Option ChanSt
  closed : Bool
  nextElem : Nat
  nextEnt : Nat
  log : List Ev
  deriving Repr, DecidableEq

/-- twoq.New: kin = maxEntries/4 floored at 1 (kin is stored but never read
by the implementation). -/
def twoqNew (maxEntries cleanupInterval : Int) : TwoQ :=
  let kin0 := maxEntries / 4
  let kin := if kin0 < 1 then 1 else kin0
  { maxEntries := maxEntries, ents := [], a1 := [], a2 := [], b := [], kin := kin,
    emap := [], onEvicted := none, defaultTTL := 0,
    cleanupInterval := cleanupInterval, stopChan := some ChanSt.opened,
    closed := false, nextElem := 0, nextEnt := 0, log := [] }

/-- Invocation of the callback when one is registered. -/
def fireTwoq (s : TwoQ) (k v ev : Nat) : TwoQ :=
  if s.onEvicted.isSome then { s with log := s.log ++ [(k, v, ev)] } else s

/-- Expiration computed by twoq.Cache.Set: an explicit positive TTL is used
unchanged; the default TTL applies only as a fallback. -/
def twoqExpiration (defaultTTL dur now : Int) : Int :=
  if dur > 0 then now + dur
  else if defaultTTL > 0 then now + defaultTTL else 0

/-- Key of the entry wrapped by an element, read through the entry store. -/
def twoqEntKey (s : TwoQ) (e : ElemRef) : Option Nat :=
  (lookupA s.ents e.ent).map (fun ent => ent.key)

/-- twoq.Cache.evict: drains A1 from the back first, pushing the victim onto
ghost queue B trimmed to maxEntries; only with A1 empty does it evict A2's
back. none models a corrupt element whose entry is missing from the store. -/
def twoqEvict (s : TwoQ) : Option TwoQ :=
  if s.a1.length > 0 then
    match s.a1.getLast? with
    | none => none
    | some ele =>
      match lookupA s.ents ele.ent with
      | none => none
      | some ent =>
        let s1 := { s with a1 := s.a1.dropLast, emap := delA s.emap ent.key,
                           b := { id := s.nextElem, ent := ele.ent } :: s.b,
                           nextElem := s.nextElem + 1 }
        let s2 := if (s1.b.length : Int) > s1.maxEntries then
            { s1 with b := s1.b.dropLast } else s1
        some (fireTwoq s2 ent.key ent.value EvictionEvent)
  else if s.a2.length > 0 then
    match s.a2.getLast? with
    | none => none
    | some ele =>
      match lookupA s.ents ele.ent with
      | none => none
      | some ent =>
        some (fireTwoq { s with a2 := s.a2.dropLast, emap := delA s.emap ent.key }
          ent.key ent.value EvictionEvent)
  else some s

/-- twoq.Cache.Set: updates an existing entry in place and then, because
a1.Remove returns the non-nil entry value whether or not the element was in
A1, always pushes a fresh element to the front of A2 (the moveToFront branch
is dead code); a new key is pushed onto A1 and the cache evicts when
a1.Len()+a2.Len() exceeds maxEntries. -/
def twoqSet (s : TwoQ) (k v : Nat) (dur now : Int) : Option TwoQ :=
  let exp := twoqExpiration s.defaultTTL dur now
  match lookupA s.emap k with
  | some ele =>
    match lookupA s.ents ele.ent with
    | none => none
    | some ent0 =>
      let ents1 := setA s.ents ele.ent { ent0 with value := v, expiration := exp }
      let a1r := listRemove s.a1 ele
      if a1r.2.isSome then
        let e' : ElemRef := { id := s.nextElem, ent := ele.ent }
        some { s with ents := ents1, a1 := a1r.1, a2 := e' :: s.a2,
                      emap := setA s.emap k e', nextElem := s.nextElem + 1 }
      else
        some { s with ents := ents1, a1 := a1r.1, a2 := moveToFront s.a2 ele }
  | none =>
    let ent : Ent := { key := k, value := v, expiration := exp }
    let e : ElemRef := { id := s.nextElem, ent := s.nextEnt }
    let s1 := { s with ents := (s.nextEnt, ent) :: s.ents, a1 := e :: s.a1,
                       emap := setA s.emap k e, nextElem := s.nextElem + 1,
                       nextEnt := s.nextEnt + 1 }
    if ((s1.a1.length + s1.a2.length : Nat) : Int) > s1.maxEntries then twoqEvict s1
    else some s1

/-- twoq.Cache.removeElement: deletes the key from the map and calls
a1.Remove, whose never-nil result means the a2.Remove branch is never
reached, so an element resident in A2 is left in A2. -/
def twoqRemoveElement (s : TwoQ) (ele : ElemRef) (ev : Nat) : Option TwoQ :=
  match lookupA s.ents ele.ent with
  | none => none
  | some ent =>
    let s1 := { s with emap := delA s.emap ent.key }
    let a1r := listRemove s1.a1 ele
    let s2 := if a1r.2.isNone then
        { s1 with a1 := a1r.1, a2 := (listRemove s1.a2 ele).1 }
      else { s1 with a1 := a1r.1 }
    some (fireTwoq s2 ent.key ent.value ev)

/-- twoq.Cache.checkGhost: removes and reports the first element of ghost
queue B whose entry has the key. -/
def twoqCheckGhost (s : TwoQ) (k : Nat) : Bool × TwoQ :=
  match s.b.find? (fun e => twoqEntKey s e == some k) with
  | some e => (true, { s with b := s.b.filter (fun x => x.id != e.id) })
  | none => (false, s)

/-- twoq.Cache.Get: an expired hit is removed with ExpirationEvent; a live
hit takes the same always-true a1.Remove branch as Set, pushing a fresh
element onto A2; a miss scans the ghost queue (removing the key) and still
misses. -/
def twoqGet (s : TwoQ) (k : Nat) (now : Int) : Option (Option Nat × TwoQ) :=
  match lookupA s.emap k with
  | some ele =>
    match lookupA s.ents ele.ent with
    | none => none
    | some ent =>
      if ent.expiration > 0 ∧ now > ent.expiration then
        (twoqRemoveElement s ele ExpirationEvent).map (fun s1 => (none, s1))
      else
        let a1r := listRemove s.a1 ele
        if a1r.2.isSome then
          let e' : ElemRef := { id := s.nextElem, ent := ele.ent }
          some (some ent.value, { s with a1 := a1r.1, a2 := e' :: s.a2,
                                         emap := setA s.emap k e',
                                         nextElem := s.nextElem + 1 })
        else
          some (some ent.value, { s with a1 := a1r.1, a2 := moveToFront s.a2 ele })
  | none =>
    some (none, (twoqCheckGhost s k).2)

/-- twoq.Cache.Keys: keys of map entries whose entry is live at now
(expiration == 0 or now <= expiration); expired ones are filtered, not
removed. -/
def twoqKeys (s : TwoQ) (now : Int) : List Nat :=
  s.emap.filterMap (fun p =>
    match lookupA s.ents p.2.ent with
    | some ent => if ent.expiration = 0 ∨ now ≤ ent.expiration then some p.1 else none
    | none => none)

/-- twoq.Cache.Len: count of live map entries at now. -/
def twoqLen (s : TwoQ) (now : Int) : Nat :=
  (s.emap.filter (fun p =>
    match lookupA s.ents p.2.ent with
    | some ent => if ent.expiration = 0 ∨ now ≤ ent.expiration then true else false
    | none => false)).length

/-- twoq.Cache.Clear: fires ClearEvent per map entry and reinitializes the
map and the three queues. -/
def twoqClear (s : TwoQ) : TwoQ :=
  let s1 := if s.onEvicted.isSome then
      { s with log := s.log ++ s.emap.filterMap (fun p =>
          (lookupA s.ents p.2.ent).map (fun ent => (p.1, ent.value, ClearEvent))) }
    else s
  { s1 with emap := [], a1 := [], a2 := [], b := [] }

/-- twoq.Cache.Close: closes and nils stopChan (so a second Close skips the
close), sets closed, and clears. -/
def twoqClose (s : TwoQ) : Option TwoQ :=
  let step : Option TwoQ :=
    match s.stopChan with
    | none => some s
    | some _ => (closeChan s.stopChan).map (fun _ => { s with stopChan := none })
  step.map (fun s1 => twoqClear { s1 with closed := true })

/-- twoq.Cache.SetEvictedFunc: unconditionally overwrites the stored
callback and returns a nil error. -/
def twoqSetEvictedFunc (s : TwoQ) (f : Nat) : Bool × TwoQ :=
  (false, { s with onEvicted := some f })

/-! ## ARC policy (internal/cache/arc) -/
/-- ARC cache state: live lists T1 and T2, ghost lists B1 and B2, adaptation
target p, entry store and entries map as in the 2Q model. -/
structure ArcCache where
  maxEntries : Int
  ents : List (Nat × Ent)
  t1 : List ElemRef
  t2 : List ElemRef
  b1 : List ElemRef
  b2 : List ElemRef
  p : Int
  emap : List (Nat × ElemRef)
  onEvicted : Option Nat
  defaultTTL : Int
  cleanupInterval : Int
  stopChan : Option ChanSt
  closed : Bool
  nextElem : Nat
  nextEnt : Nat
  log : List Ev
  deriving Repr, DecidableEq

/-- arc.New: p starts at 0. -/
def arcNew (maxEntries cleanupInterval : Int) : ArcCache :=
  { maxEntries := maxEntries, ents := [], t1 := [], t2 := [], b1 := [], b2 := [],
    p := 0, emap := [], onEvicted := none, defaultTTL := 0,
    cleanupInterval := cleanupInterval, stopChan := some ChanSt.opened,
    closed := false, nextElem := 0, nextEnt := 0, log := [] }

/-- Invocation of the callback when one is registered. -/
def fireArc (s : ArcCache) (k v ev : Nat) : ArcCache :=
  if s.onEvicted.isSome then { s with log := s.log ++ [(k, v, ev)] } else s

/-- arc.go max helper on int. -/
def arcMax (a b : Int) : Int := if a > b then a else b

/-- arc.go min helper on int. -/
def arcMin (a b : Int) : Int := if a < b then a else b

/-- Expiration computed by arc.Cache.Set: an explicit positive TTL is used
unchanged; the default TTL applies only as a fallback. -/
def arcExpiration (defaultTTL dur now : Int) : Int :=
  if dur > 0 then now + dur
  else if defaultTTL > 0 then now + defaultTTL else 0

/-- Key of the entry wrapped by an element, read through the entry store. -/
def arcEntKey (s : ArcCache) (e : ElemRef) : Option Nat :=
  (lookupA s.ents e.ent).map (fun ent => ent.key)

/-- arc.Cache.checkGhost: removes and reports the first element of the given
ghost list whose entry has the key; returns the updated list. -/
def arcCheckGhost (s : ArcCache) (l : List ElemRef) (k : Nat) :
    Bool × List ElemRef :=
  match l.find? (fun e => arcEntKey s e == some k) with
  | some e => (true, l.filter (fun x => x.id != e.id))
  | none => (false, l)

/-- arc.Cache.replace: if T1 holds at least max(1, p) entries the back of T1
is evicted into B1 (trimmed to maxEntries), otherwise the back of T2 into B2;
none models the nil dereference of Back() on an empty list in the chosen
branch (reachable: a ghost hit while T1 has shrunk below max(1,p) and T2 is
empty panics). -/
def arcReplace (s : ArcCache) : Option ArcCache :=
  if (s.t1.length : Int) ≥ arcMax 1 s.p then
    match s.t1.getLast? with
    | none => none
    | some ele =>
      match lookupA s.ents ele.ent with
      | none => none
      | some ent =>
        let s1 := { s with t1 := s.t1.dropLast, emap := delA s.emap ent.key,
                           b1 := { id := s.nextElem, ent := ele.ent } :: s.b1,
                           nextElem := s.nextElem + 1 }
        let s2 := if (s1.b1.length : Int) > s1.maxEntries then
            { s1 with b1 := s1.b1.dropLast } else s1
        some (fireArc s2 ent.key ent.value EvictionEvent)
  else
    match s.t2.getLast? with
    | none => none
    | some ele =>
      match lookupA s.ents ele.ent with
      | none => none
      | some ent =>
        let s1 := { s with t2 := s.t2.dropLast, emap := delA s.emap ent.key,
                           b2 := { id := s.nextElem, ent := ele.ent } :: s.b2,
                           nextElem := s.nextElem + 1 }
        let s2 := if (s1.b2.length : Int) > s1.maxEntries then
            { s1 with b2 := s1.b2.dropLast } else s1
        some (fireArc s2 ent.key ent.value EvictionEvent)

/-- arc.Cache.evict: textually the same body as replace. -/
def arcEvict (s : ArcCache) : Option ArcCache :=
  if (s.t1.length : Int) ≥ arcMax 1 s.p then
    match s.t1.getLast? with
    | none => none
    | some ele =>
      match lookupA s.ents ele.ent with
      | none => none
      | some ent =>
        let s1 := { s with t1 := s.t1.dropLast, emap := delA s.emap ent.key,
                           b1 := { id := s.nextElem, ent := ele.ent } :: s.b1,
                           nextElem := s.nextElem + 1 }
        let s2 := if (s1.b1.length : Int) > s1.maxEntries then
            { s1 with b1 := s1.b1.dropLast } else s1
        some (fireArc s2 ent.key ent.value EvictionEvent)
  else
    match s.t2.getLast? with
    | none => none
    | some ele =>
      match lookupA s.ents ele.ent with
      | none => none
      | some ent =>
        let s1 := { s with t2 := s.t2.dropLast, emap := delA s.emap ent.key,
                           b2 := { id := s.nextElem, ent := ele.ent } :: s.b2,
                           nextElem := s.nextElem + 1 }
        let s2 := if (s1.b2.length : Int) > s1.maxEntries then
            { s1 with b2 := s1.b2.dropLast } else s1
        some (fireArc s2 ent.key ent.value EvictionEvent)

/-- Ghost-scan stage of arc.Cache.Set on a miss: both ghost lists are
scanned (each removing the key if found); a B1 hit raises p by
max(1, b1.Len() > 0 ? b2.Len()/b1.Len() : 1) clamped to maxEntries and runs
replace; a B2 hit lowers p symmetrically clamped to 0 and runs replace. -/
def arcSetGhost (s : ArcCache) (k : Nat) : Option ArcCache :=
  let g1 := arcCheckGhost s s.b1 k
  let sA := { s with b1 := g1.2 }
  let g2 := arcCheckGhost sA sA.b2 k
  let sB := { sA with b2 := g2.2 }
  if g1.1 then
    let sC := if sB.b1.length > 0 then
        { sB with p := arcMin (sB.p + arcMax 1 ((sB.b2.length : Int) / (sB.b1.length : Int))) sB.maxEntries }
      else { sB with p := arcMin (sB.p + 1) sB.maxEntries }
    arcReplace sC
  else if g2.1 then
    let sC := if sB.b2.length > 0 then
        { sB with p := arcMax (sB.p - arcMax 1 ((sB.b1.length : Int) / (sB.b2.length : Int))) 0 }
      else { sB with p := arcMax (sB.p - 1) 0 }
    arcReplace sC
  else some sB

/-- Tail of arc.Cache.Set on a miss: push the new entry onto T1 (recording it
in the map) and evict when t1.Len()+t2.Len() exceeds maxEntries. -/
def arcSetInsert (s : ArcCache) (k v : Nat) (exp : Int) : Option ArcCache :=
  let ent : Ent := { key := k, value := v, expiration := exp }
  let e : ElemRef := { id := s.nextElem, ent := s.nextEnt }
  let s1 := { s with ents := (s.nextEnt, ent) :: s.ents, t1 := e :: s.t1,
                     emap := setA s.emap k e, nextElem := s.nextElem + 1,
                     nextEnt := s.nextEnt + 1 }
  if ((s1.t1.length + s1.t2.length : Nat) : Int) > s1.maxEntries then arcEvict s1
  else some s1

/-- arc.Cache.Set: an existing key is updated in place and, because
t1.Remove returns the non-nil entry value whether or not the element was in
T1, always gets a fresh element pushed onto T2 (the MoveToFront branch is
dead code); a new key goes through the ghost scan and is then inserted into
T1. -/
def arcSet (s : ArcCache) (k v : Nat) (dur now : Int) : Option ArcCache :=
  let exp := arcExpiration s.defaultTTL dur now
  match lookupA s.emap k with
  | some ele =>
    match lookupA s.ents ele.ent with
    | none => none
    | some ent0 =>
      let ents1 := setA s.ents ele.ent { ent0 with value := v, expiration := exp }
      let t1r := listRemove s.t1 ele
      if t1r.2.isSome then
        let e' : ElemRef := { id := s.nextElem, ent := ele.ent }
        some { s with ents := ents1, t1 := t1r.1, t2 := e' :: s.t2,
                      emap := setA s.emap k e', nextElem := s.nextElem + 1 }
      else
        some { s with ents := ents1, t1 := t1r.1, t2 := moveToFront s.t2 ele }
  | none =>
    (arcSetGhost s k).bind (fun s1 => arcSetInsert s1 k v exp)

/-- arc.Cache.removeElement: deletes the key from the map and calls
t1.Remove, whose never-nil result means the t2.Remove branch is never
reached, so an element resident in T2 is left in T2. -/
def arcRemoveElement (s : ArcCache) (ele : ElemRef) (ev : Nat) : Option ArcCache :=
  match lookupA s.ents ele.ent with
  | none => none
  | some ent =>
    let s1 := { s with emap := delA s.emap ent.key }
    let t1r := listRemove s1.t1 ele
    let s2 := if t1r.2.isNone then
        { s1 with t1 := t1r.1, t2 := (listRemove s1.t2 ele).1 }
      else { s1 with t1 := t1r.1 }
    some (fireArc s2 ent.key ent.value ev)

/-- arc.Cache.Get: an expired hit is removed with ExpirationEvent; a live hit
takes the always-true t1.Remove branch, pushing a fresh element onto T2; a
miss scans both ghost lists, adapting p on a hit exactly as Set does but
without running replace. -/
def arcGet (s : ArcCache) (k : Nat) (now : Int) : Option (Option Nat × ArcCache) :=
  match lookupA s.emap k with
  | some ele =>
    match lookupA s.ents ele.ent with
    | none => none
    | some ent =>
      if ent.expiration > 0 ∧ now > ent.expiration then
        (arcRemoveElement s ele ExpirationEvent).map (fun s1 => (none, s1))
      else
        let t1r := listRemove s.t1 ele
        if t1r.2.isSome then
          let e' : ElemRef := { id := s.nextElem, ent := ele.ent }
          some (some ent.value, { s with t1 := t1r.1, t2 := e' :: s.t2,
                                         emap := setA s.emap k e',
                                         nextElem := s.nextElem + 1 })
        else
          some (some ent.value, { s with t1 := t1r.1, t2 := moveToFront s.t2 ele })
  | none =>
    let g1 := arcCheckGhost s s.b1 k
    let sA := { s with b1 := g1.2 }
    let g2 := arcCheckGhost sA sA.b2 k
    let sB := { sA with b2 := g2.2 }
    if g1.1 then
      some (none, if sB.b1.length > 0 then
        { sB with p := arcMin (sB.p + arcMax 1 ((sB.b2.length : Int) / (sB.b1.length : Int))) sB.maxEntries }
      else { sB with p := arcMin (sB.p + 1) sB.maxEntries })
    else if g2.1 then
      some (none, if sB.b2.length > 0 then
        { sB with p := arcMax (sB.p - arcMax 1 ((sB.b1.length : Int) / (sB.b2.length : Int))) 0 }
      else { sB with p := arcMax (sB.p - 1) 0 })
    else some (none, sB)

/-- arc.Cache.Keys: keys of map entries whose entry is live at now. -/
def arcKeys (s : ArcCache) (now : Int) : List Nat :=
  s.emap.filterMap (fun p =>
    match lookupA s.ents p.2.ent with
    | some ent => if ent.expiration = 0 ∨ now ≤ ent.expiration then some p.1 else none
    | none => none)

/-- arc.Cache.Len: count of live map entries at now. -/
def arcLen (s : ArcCache) (now : Int) : Nat :=
  (s.emap.filter (fun p =>
    match lookupA s.ents p.2.ent with
    | some ent => if ent.expiration = 0 ∨ now ≤ ent.expiration then true else false
    | none => false)).length

/-- arc.Cache.Clear: fires ClearEvent per map entry, reinitializes the map
and the four lists, and resets p to 0. -/
def arcClear (s : ArcCache) : ArcCache :=
  let s1 := if s.onEvicted.isSome then
      { s with log := s.log ++ s.emap.filterMap (fun p =>
          (lookupA s.ents p.2.ent).map (fun ent => (p.1, ent.value, ClearEvent))) }
    else s
  { s1 with emap := [], t1 := [], t2 := [], b1 := [], b2 := [], p := 0 }

/-- arc.Cache.Close: closes and nils stopChan (so a second Close skips the
close), sets closed, and clears. -/
def arcClose (s : ArcCache) : Option ArcCache :=
  let step : Option ArcCache :=
    match s.stopChan with
    | none => some s
    | some _ => (closeChan s.stopChan).map (fun _ => { s with stopChan := none })
  step.map (fun s1 => arcClear { s1 with closed := true })

/-- arc.Cache.SetEvictedFunc: unconditionally overwrites the stored callback
and returns a nil error. -/
def arcSetEvictedFunc (s : ArcCache) (f : Nat) : Bool × ArcCache :=
  (false, { s with onEvicted := some f })

/-- arc.Cache.SetDefaultTTL. -/
def arcSetDefaultTTL (s : ArcCache) (ttl : Int) : ArcCache :=
  { s with defaultTTL := ttl }

/-- Removal loop at the end of arc.Cache.cleanup. -/
def arcRemoveAll (s : ArcCache) : List ElemRef → Option ArcCache
  | [] => some s
  | e :: t =>
    match arcRemoveElement s e ExpirationEvent with
    | none => none
    | some s1 => arcRemoveAll s1 t

/-- arc.Cache.cleanup: one sweep pass; skipped entirely when the cache is
closed, otherwise removes every expired element found in T1 and T2. -/
def arcCleanup (s : ArcCache) (now : Int) : Option ArcCache :=
  if s.closed then some s
  else
    arcRemoveAll s ((s.t1 ++ s.t2).filter (fun e =>
      match lookupA s.ents e.ent with
      | some ent => if ent.expiration > 0 ∧ now > ent.expiration then true else false
      | none => false))

/-- Mutating operations of the arc cache, used to state reachability. -/
inductive ArcOp where
  | set (k v : Nat) (dur now : Int)
  | get (k : Nat) (now : Int)
  | clear
  | close
  | setEvicted (f : Nat)
  | setTTL (t : Int)
  | cleanup (now : Int)
  deriving Repr

/-- One operation of the arc cache; none models a panic. -/
def arcStep (s : ArcCache) : ArcOp → Option ArcCache
  | ArcOp.set k v dur now => arcSet s k v dur now
  | ArcOp.get k now => (arcGet s k now).map (fun r => r.2)
  | ArcOp.clear => some (arcClear s)
  | ArcOp.close => arcClose s
  | ArcOp.setEvicted f => some (arcSetEvictedFunc s f).2
  | ArcOp.setTTL t => some (arcSetDefaultTTL s t)
  | ArcOp.cleanup now => arcCleanup s now

/-- Execution of a sequence of arc operations. -/
def arcRun (s : ArcCache) : List ArcOp → Option ArcCache
  | [] => some s
  | op :: t =>
    match arcStep s op with
    | none => none
    | some s1 => arcRun s1 t

/-! ## Consistent hash ring (internal/consistenthash) -/
/-- Consistent hash ring state: the pluggable 32-bit hash function, the
sorted slice of virtual-point hashes, the point-to-node map and the set of
real nodes. -/
structure CHash where
  hashFunc : String → Nat
  replicas : Int
  keys : List Nat
  nodeMap : List (Nat × String)
  nodes : List String

/-- Go sort.Search, written with explicit fuel so that it is structurally
recursive; sortSearch supplies fuel n, which bounds the interval width, so
the fuel never runs out. The loop keeps halving [i, j) and returns the final
i. -/
def sortSearchGo (f : Nat → Bool) : Nat → Nat → Nat → Nat
  | 0, i, _ => i
  | fuel + 1, i, j =>
    if i < j then
      let m := (i + j) / 2
      if !(f m) then sortSearchGo f fuel (m + 1) j else sortSearchGo f fuel i m
    else i

/-- Go sort.Search(n, f): smallest index in [0, n) at which f is true,
assuming f is false then true; n when f is never true. -/
def sortSearch (n : Nat) (f : Nat → Bool) : Nat :=
  sortSearchGo f n 0 n

/-- Read of the Go nodeMap, whose zero value for a missing key is the empty
string. -/
def nodeOf (m : List (Nat × String)) (h : Nat) : String :=
  (lookupA m h).getD ("")

/-- consistenthash.ConsistentHash.GetNode: empty ring yields no node;
otherwise binary-search the sorted points for the first hash at least the
key's hash, wrapping to index 0 when none is found. -/
def getNode (c : CHash) (key : String) : String :=
  if c.keys.length = 0 then ("")
  else
    let h := c.hashFunc key
    let idx0 := sortSearch c.keys.length (fun i => decide (c.keys.getD i 0 ≥ h))
    let idx := if idx0 = c.keys.length then 0 else idx0
    nodeOf c.nodeMap (c.keys.getD idx 0)

/-- Expiration currently stored for a key in an LRU cache. -/
def lruExpOf (s : LruCache) (k : Nat) : Option Int :=
  (((s.ll).getD []).find? (fun e => e.key == k)).map (fun e => e.expiration)

/-- Expiration currently stored for a key in an LFU cache. -/
def lfuExpOf (s : LfuCache) (k : Nat) : Option Int :=
  (lookupA ((s.entries).getD []) k).map (fun e => e.expiration)

/-- Expiration currently stored for a key in a 2Q cache, read through the
entries map and the entry store. -/
def twoqExpOf (s : TwoQ) (k : Nat) : Option Int :=
  (lookupA s.emap k).bind (fun ele =>
    (lookupA s.ents ele.ent).map (fun e => e.expiration))

/-- Expiration currently stored for a key in an ARC cache. -/
def arcExpOf (s : ArcCache) (k : Nat) : Option Int :=
  (lookupA s.emap k).bind (fun ele =>
    (lookupA s.ents ele.ent).map (fun e => e.expiration))

/-- Expiration currently stored for a key in a random cache. -/
def randomExpOf (s : RandomCache) (k : Nat) : Option Int :=
  (lookupA s.entries k).map (fun e => e.expiration)

/-- Number of ordering slots (elements of A1 and A2 together) whose wrapped
entry carries the given key in a 2Q cache. -/
def twoqSlotCount (s : TwoQ) (k : Nat) : Nat :=
  ((s.a1 ++ s.a2).filter (fun e => twoqEntKey s e == some k)).length

/-- Stated from the spec for comparison: the number of live (unexpired)
entries an LRU cache holds at the given instant. -/
def lruSpecLiveCount (s : LruCache) (now : Int) : Nat :=
  (((s.ll).getD []).filter (fun e =>
    if e.expiration = 0 ∨ now ≤ e.expiration then true else false)).length

/-- Stated from the spec for comparison: the live keys of a twoq cache at an
instant, as the keys of the unexpired map entries. -/
def twoqSpecLiveKeys (s : TwoQ) (now : Int) : List Nat :=
  (s.emap.filter (fun p =>
    match lookupA s.ents p.2.ent with
    | some ent => if ent.expiration = 0 ∨ now ≤ ent.expiration then true else false
    | none => false)).map (fun p => p.1)

/-- Stated from the spec for comparison: the live keys of an arc cache. -/
def arcSpecLiveKeys (s : ArcCache) (now : Int) : List Nat :=
  (s.emap.filter (fun p =>
    match lookupA s.ents p.2.ent with
    | some ent => if ent.expiration = 0 ∨ now ≤ ent.expiration then true else false
    | none => false)).map (fun p => p.1)

/-- Invariant of the arc adaptation target: p stays within [0, maxEntries]. -/
def ArcInv (s : ArcCache) : Prop :=
  0 ≤ s.maxEntries ∧ 0 ≤ s.p ∧ s.p ≤ s.maxEntries

/-! ## Theorems -/

theorem lookupA_setA_self {α : Type} (m : List (Nat × α)) (k : Nat) (v : α) :
    lookupA (setA m k v) k = some v := by
  induction m with
  | nil => simp [setA, lookupA]
  | cons h t ih =>
    by_cases hk : h.1 = k
    · simp [setA, hk, lookupA]
    · simp [setA, hk, lookupA, ih]

theorem lookupA_delA_self {α : Type} (m : List (Nat × α)) (k : Nat) :
    lookupA (delA m k) k = none := by
  induction m with
  | nil => simp [delA, lookupA]
  | cons h t ih =>
    by_cases hk : h.1 = k
    · simpa [delA, hk, lookupA] using ih
    · simpa [delA, hk, lookupA] using ih

/-! ## Observation helpers and auxiliary lemmas -/
theorem lookupA_delA_ne {α : Type} (m : List (Nat × α)) (j k : Nat) (h : j ≠ k) :
    lookupA (delA m j) k = lookupA m k := by
  induction m with
  | nil => rfl
  | cons hd t ih =>
    by_cases hj : hd.1 = j
    · have hk : hd.1 ≠ k := by omega
      simp only [delA, List.filter_cons] at ih ⊢
      simp only [hj, bne_self_eq_false, Bool.false_eq_true, if_false]
      rw [ih]
      cases hd with
      | mk a b => simp_all [lookupA]
    · simp only [delA, List.filter_cons] at ih ⊢
      have hbne : (hd.1 != j) = true := by simpa using hj
      rw [hbne]
      simp only [if_true]
      cases hd with
      | mk a b =>
        by_cases hk : a = k
        · simp [lookupA, hk]
        · simp_all [lookupA]

/-! ## Claims settled on concrete runs -/
/-- C1: the claim says a cache built with maxEntries = 0 is unlimited and a
Set can never trigger a capacity eviction. The twoq code (with the same slip
in lfu and arc) evicts whenever a1.Len()+a2.Len() > maxEntries with no
maxEntries > 0 guard, contradicting its own comment that zero means no
limit: on a fresh 2Q cache with maxEntries = 0, one Set of a new key fires a
capacity EvictionEvent and leaves the cache empty. -/
theorem C1_twoq_maxEntries_zero_evicts :
    (twoqSet ((twoqSetEvictedFunc (twoqNew 0 0) 5).2) 1 7 0 0).map
      (fun s => (lookupA s.emap 1, twoqLen s 0, s.log)) =
      some (none, 0, [(1, 7, EvictionEvent)]) := by decide

/-- C3: the claim says every entry keeps exactly one ordering slot. In the
twoq code, Go list.Remove returns the element's non-nil value even when the
element is not in A1, so the promotion branch of Get re-pushes an entry that
is already in A2: after Set(1); Get(1); Get(1) the key 1 owns two A2 slots. -/
theorem C3_twoq_duplicate_ordering_slot :
    ((twoqSet (twoqNew 10 0) 1 7 0 0).bind (fun s1 =>
      (twoqGet s1 1 0).bind (fun r2 =>
        (twoqGet r2.2 1 0).map (fun r3 => twoqSlotCount r3.2 1)))) = some 2 := by
  decide

/-- C4 counterexample: the claim says Len() counts live entries only in every
policy, but lru.Cache.Len returns the raw list length: one entry set at
instant 0 with TTL 5 is expired at instant 10, yet Len still reports 1 while
the live count is 0. -/
theorem C4_counterexample_lru_len_counts_expired :
    lruLen (lruSet (lruNew 0 0) 1 7 5 0) = 1 ∧
    lruSpecLiveCount (lruSet (lruNew 0 0) 1 7 5 0) 10 = 0 ∧
    lruKeys (lruSet (lruNew 0 0) 1 7 5 0) = [1] := by decide

/-- C10 counterexample: the claim says every policy stays usable after
Clear(), but lfu.Cache.Clear nils the entries and freqList maps and
lfu.Cache.Set then writes to the nil maps, which panics. -/
theorem C10_counterexample_lfu_set_after_clear_panics :
    lfuSet (lfuClear (lfuNew 5 0)) 1 2 0 0 = none := by decide

/-! ## Helper lemmas: state after Clear -/
theorem lruClear_ll (s : LruCache) : (lruClear s).ll = none := by
  by_cases h : s.onEvicted.isSome <;> simp [lruClear, h]

theorem randomClear_entries (s : RandomCache) : (randomClear s).entries = [] := by
  by_cases h : s.onEvicted.isSome <;> simp [randomClear, h]

theorem arcClear_empty (s : ArcCache) : (arcClear s).emap = [] ∧ (arcClear s).t1 = [] ∧
    (arcClear s).t2 = [] ∧ (arcClear s).b1 = [] ∧ (arcClear s).b2 = [] ∧
    (arcClear s).maxEntries = s.maxEntries := by
  by_cases h : s.onEvicted.isSome <;> simp [arcClear, h]

theorem twoqClear_empty (s : TwoQ) : (twoqClear s).emap = [] ∧ (twoqClear s).a1 = [] ∧
    (twoqClear s).a2 = [] ∧ (twoqClear s).maxEntries = s.maxEntries := by
  by_cases h : s.onEvicted.isSome <;> simp [twoqClear, h]

theorem lfuClear_entries (s : LfuCache) : (lfuClear s).entries = none ∧
    (lfuClear s).freqList = none := by
  by_cases h : s.onEvicted.isSome <;> simp [lfuClear, h]

theorem lru_set_get_on_empty (t : LruCache) (k v : Nat) (now : Int) (h : t.ll = none) :
    (lruGet (lruSet t k v 0 now) k now).1 = some v := by
  obtain ⟨mx, ll, oe, dt, ci, sc, lg⟩ := t
  simp only at h
  subst h
  by_cases hd : 0 < dt
  · by_cases hm : mx = 0
    · simp [lruSet, lruGet, lruExpiration, hd, hm, lruRemoveOldest]
      have hfalse : ¬(0 < now + dt ∧ dt < 0) := by omega
      simp [hfalse]
    · by_cases hz : 0 ≥ mx
      · simp [lruSet, lruGet, lruExpiration, hd, hm, hz, lruRemoveOldest]
        have hfalse : ¬(0 < now + dt ∧ dt < 0) := by omega
        simp [hfalse]
      · simp [lruSet, lruGet, lruExpiration, hd, hm, hz, lruRemoveOldest]
        have hfalse : ¬(0 < now + dt ∧ dt < 0) := by omega
        simp [hfalse]
  · by_cases hm : mx = 0
    · simp [lruSet, lruGet, lruExpiration, hd, hm, lruRemoveOldest]
    · by_cases hz : 0 ≥ mx
      · simp [lruSet, lruGet, lruExpiration, hd, hm, hz, lruRemoveOldest]
      · simp [lruSet, lruGet, lruExpiration, hd, hm, hz, lruRemoveOldest]

theorem arc_set_get_on_empty (t : ArcCache) (k v : Nat) (now : Int)
    (hemap : t.emap = []) (ht1 : t.t1 = []) (ht2 : t.t2 = []) (hb1 : t.b1 = [])
    (hb2 : t.b2 = []) (hmax : 1 ≤ t.maxEntries) :
    (arcSet t k v 0 now).bind
      (fun s1 => (arcGet s1 k now).map (fun rr => rr.1)) = some (some v) := by
  obtain ⟨mx, ents, t1, t2, b1, b2, p, emap, oe, dt, ci, sc, cl, ne, nn, lg⟩ := t
  simp only at hemap ht1 ht2 hb1 hb2 hmax
  subst hemap; subst ht1; subst ht2; subst hb1; subst hb2
  have hlt : ¬(mx < 1) := by omega
  by_cases hd : 0 < dt
  · simp [arcSet, arcSetGhost, arcCheckGhost, arcSetInsert, arcGet, arcExpiration,
      hd, hlt, lookupA, setA, listRemove]
    have hfalse : ¬(0 < now + dt ∧ dt < 0) := by omega
    simp [hfalse]
  · simp [arcSet, arcSetGhost, arcCheckGhost, arcSetInsert, arcGet, arcExpiration,
      hd, hlt, lookupA, setA, listRemove]

theorem twoq_set_get_on_empty (t : TwoQ) (k v : Nat) (now : Int)
    (hemap : t.emap = []) (ha1 : t.a1 = []) (ha2 : t.a2 = []) (hmax : 1 ≤ t.maxEntries) :
    (twoqSet t k v 0 now).bind
      (fun s1 => (twoqGet s1 k now).map (fun rr => rr.1)) = some (some v) := by
  obtain ⟨mx, ents, a1, a2, b, kin, emap, oe, dt, ci, sc, cl, ne, nn, lg⟩ := t
  simp only at hemap ha1 ha2 hmax
  subst hemap; subst ha1; subst ha2
  have hlt : ¬(mx < 1) := by omega
  by_cases hd : 0 < dt
  · simp [twoqSet, twoqGet, twoqExpiration, hd, hlt, lookupA, setA, listRemove]
    have hfalse : ¬(0 < now + dt ∧ dt < 0) := by omega
    simp [hfalse]
  · simp [twoqSet, twoqGet, twoqExpiration, hd, hlt, lookupA, setA, listRemove]

theorem random_set_get_on_empty (t : RandomCache) (k v : Nat) (now : Int) (r : Nat)
    (h : t.entries = []) :
    randomGet (randomSet t k v 0 now r) k now = some v := by
  obtain ⟨mx, en, ks, oe, dt, ci, sc, lg⟩ := t
  simp only at h
  subst h
  have hm : ¬(0 < mx ∧ mx < 1) := by omega
  by_cases hd : 0 < dt
  · simp [randomSet, randomGet, randomExpiration, hd, hm, lookupA, setA]
    omega
  · simp [randomSet, randomGet, randomExpiration, hd, hm, lookupA, setA]

theorem lfu_set_on_nil (t : LfuCache) (k v : Nat) (dur now : Int)
    (h : t.entries = none) (hf : t.freqList = none) :
    lfuSet t k v dur now = none := by
  obtain ⟨mx, en, fl, mf, oe, dt, ci, sc, lg⟩ := t
  simp only at h hf
  subst h; subst hf
  by_cases hm : (0 : Int) ≥ mx
  · simp [lfuSet, lfuEvict, lookupA, hm]
  · simp [lfuSet, lfuEvict, lookupA, hm]

/-! ## Registration, stop-signal and clear claims -/
/-- C6: eviction-callback registration policy: lru and lfu reject a second
registration with an error, leaving the stored callback unchanged, and
accept a first registration with a nil error; arc, twoq and random always
overwrite the stored callback and return a nil error. -/
theorem C6_evicted_func_registration :
    (∀ (s : LruCache) (f g : Nat), s.onEvicted = some g →
        lruSetEvictedFunc s f = (true, s)) ∧
    (∀ (s : LruCache) (f : Nat), s.onEvicted = none →
        lruSetEvictedFunc s f = (false, { s with onEvicted := some f })) ∧
    (∀ (s : LfuCache) (f g : Nat), s.onEvicted = some g →
        lfuSetEvictedFunc s f = (true, s)) ∧
    (∀ (s : LfuCache) (f : Nat), s.onEvicted = none →
        lfuSetEvictedFunc s f = (false, { s with onEvicted := some f })) ∧
    (∀ (s : ArcCache) (f : Nat),
        arcSetEvictedFunc s f = (false, { s with onEvicted := some f })) ∧
    (∀ (s : TwoQ) (f : Nat),
        twoqSetEvictedFunc s f = (false, { s with onEvicted := some f })) ∧
    (∀ (s : RandomCache) (f : Nat),
        randomSetEvictedFunc s f = (false, { s with onEvicted := some f })) := by
  refine ⟨?_, ?_, ?_, ?_, ?_, ?_, ?_⟩
  · intro s f g h; simp [lruSetEvictedFunc, h]
  · intro s f h; simp [lruSetEvictedFunc, h]
  · intro s f g h; simp [lfuSetEvictedFunc, h]
  · intro s f h; simp [lfuSetEvictedFunc, h]
  · intro s f; rfl
  · intro s f; rfl
  · intro s f; rfl

/-- Witness for C6 at concrete caches. -/
theorem C6_evicted_func_registration_witness :
    lruSetEvictedFunc ((lruSetEvictedFunc (lruNew 0 0) 4).2) 9 =
      (true, (lruSetEvictedFunc (lruNew 0 0) 4).2) ∧
    lfuSetEvictedFunc ((lfuSetEvictedFunc (lfuNew 0 0) 4).2) 9 =
      (true, (lfuSetEvictedFunc (lfuNew 0 0) 4).2) ∧
    lruSetEvictedFunc (lruNew 0 0) 4 = (false, { lruNew 0 0 with onEvicted := some 4 }) :=
  ⟨C6_evicted_func_registration.1 _ 9 4 rfl,
   C6_evicted_func_registration.2.2.1 _ 9 4 rfl,
   C6_evicted_func_registration.2.1 _ 4 rfl⟩

/-- C7: invoking the sweeper stop signal twice on one instance is fatal for
lru and lfu, whose StopCleanup closes the never-nil-ed channel again, while
a second Close (arc, twoq) or StopCleanup (random) succeeds because those
implementations nil the channel after closing it. -/
theorem C7_double_stop :
    (∀ s : LruCache, s.stopChan = some ChanSt.opened →
        (lruStopCleanup s).bind lruStopCleanup = none) ∧
    (∀ s : LfuCache, s.stopCleanupCh = some ChanSt.opened →
        (lfuStopCleanup s).bind lfuStopCleanup = none) ∧
    (∀ s : ArcCache, s.stopChan = some ChanSt.opened →
        ((arcClose s).bind arcClose).isSome = true) ∧
    (∀ s : TwoQ, s.stopChan = some ChanSt.opened →
        ((twoqClose s).bind twoqClose).isSome = true) ∧
    (∀ s : RandomCache, s.stopChan = some ChanSt.opened →
        ((randomStopCleanup s).bind randomStopCleanup).isSome = true) := by
  refine ⟨?_, ?_, ?_, ?_, ?_⟩
  · intro s h; simp [lruStopCleanup, h, closeChan]
  · intro s h; simp [lfuStopCleanup, h, closeChan]
  · intro s h
    have h1 : ∀ t : ArcCache, (arcClear t).stopChan = t.stopChan := by
      intro t; by_cases hh : t.onEvicted.isSome <;> simp [arcClear, hh]
    have e1 : arcClose s = some (arcClear { s with stopChan := none, closed := true }) := by
      simp [arcClose, h, closeChan]
    rw [e1, Option.some_bind]
    have h2 : (arcClear { s with stopChan := none, closed := true }).stopChan =
        (none : Option ChanSt) := h1 _
    simp [arcClose, h2]
  · intro s h
    have h1 : ∀ t : TwoQ, (twoqClear t).stopChan = t.stopChan := by
      intro t; by_cases hh : t.onEvicted.isSome <;> simp [twoqClear, hh]
    have e1 : twoqClose s = some (twoqClear { s with stopChan := none, closed := true }) := by
      simp [twoqClose, h, closeChan]
    rw [e1, Option.some_bind]
    have h2 : (twoqClear { s with stopChan := none, closed := true }).stopChan =
        (none : Option ChanSt) := h1 _
    simp [twoqClose, h2]
  · intro s h
    by_cases hc : s.cleanupInterval > 0
    · simp [randomStopCleanup, h, hc, closeChan]
    · simp [randomStopCleanup, h, hc, closeChan]

/-- Witness for C7 at freshly constructed caches. -/
theorem C7_double_stop_witness :
    (lruStopCleanup (lruNew 0 0)).bind lruStopCleanup = none ∧
    (lfuStopCleanup (lfuNew 0 0)).bind lfuStopCleanup = none ∧
    ((arcClose (arcNew 0 0)).bind arcClose).isSome = true ∧
    ((twoqClose (twoqNew 0 0)).bind twoqClose).isSome = true ∧
    ((randomStopCleanup (randomNew 0 5)).bind randomStopCleanup).isSome = true :=
  ⟨C7_double_stop.1 _ rfl, C7_double_stop.2.1 _ rfl, C7_double_stop.2.2.1 _ rfl,
   C7_double_stop.2.2.2.1 _ rfl, C7_double_stop.2.2.2.2 _ rfl⟩

/-- C10 amended: a cache instance remains usable after Clear for the lru and
random policies (always) and for the arc and twoq policies when
maxEntries ≥ 1 (with maxEntries = 0 those two evict the fresh entry at once,
see C1); for the lfu policy any Set after Clear faults on the nil-ed maps
instead of completing. -/
theorem C10_usable_after_clear_amended :
    (∀ (s : LruCache) (k v : Nat) (now : Int),
        (lruGet (lruSet (lruClear s) k v 0 now) k now).1 = some v) ∧
    (∀ (s : RandomCache) (k v : Nat) (now : Int) (r : Nat),
        randomGet (randomSet (randomClear s) k v 0 now r) k now = some v) ∧
    (∀ (s : ArcCache) (k v : Nat) (now : Int), 1 ≤ s.maxEntries →
        (arcSet (arcClear s) k v 0 now).bind
          (fun s1 => (arcGet s1 k now).map (fun rr => rr.1)) = some (some v)) ∧
    (∀ (s : TwoQ) (k v : Nat) (now : Int), 1 ≤ s.maxEntries →
        (twoqSet (twoqClear s) k v 0 now).bind
          (fun s1 => (twoqGet s1 k now).map (fun rr => rr.1)) = some (some v)) ∧
    (∀ (s : LfuCache) (k v : Nat) (dur now : Int),
        lfuSet (lfuClear s) k v dur now = none) := by
  refine ⟨?_, ?_, ?_, ?_, ?_⟩
  · intro s k v now
    exact lru_set_get_on_empty (lruClear s) k v now (lruClear_ll s)
  · intro s k v now r
    exact random_set_get_on_empty (randomClear s) k v now r (randomClear_entries s)
  · intro s k v now hmax
    obtain ⟨h1, h2, h3, h4, h5, h6⟩ := arcClear_empty s
    exact arc_set_get_on_empty (arcClear s) k v now h1 h2 h3 h4 h5 (h6 ▸ hmax)
  · intro s k v now hmax
    obtain ⟨h1, h2, h3, h4⟩ := twoqClear_empty s
    exact twoq_set_get_on_empty (twoqClear s) k v now h1 h2 h3 (h4 ▸ hmax)
  · intro s k v dur now
    obtain ⟨h1, h2⟩ := lfuClear_entries s
    exact lfu_set_on_nil (lfuClear s) k v dur now h1 h2

/-- Witness for C10 at concrete caches. -/
theorem C10_usable_after_clear_amended_witness :
    (lruGet (lruSet (lruClear (lruNew 0 0)) 1 2 0 0) 1 0).1 = some 2 ∧
    (arcSet (arcClear (arcNew 3 0)) 1 2 0 0).bind
      (fun s1 => (arcGet s1 1 0).map (fun rr => rr.1)) = some (some 2) ∧
    (twoqSet (twoqClear (twoqNew 3 0)) 1 2 0 0).bind
      (fun s1 => (twoqGet s1 1 0).map (fun rr => rr.1)) = some (some 2) ∧
    lfuSet (lfuClear (lfuNew 3 0)) 1 2 0 0 = none :=
  ⟨C10_usable_after_clear_amended.1 _ 1 2 0,
   C10_usable_after_clear_amended.2.2.1 _ 1 2 0 (by decide),
   C10_usable_after_clear_amended.2.2.2.1 _ 1 2 0 (by decide),
   C10_usable_after_clear_amended.2.2.2.2 _ 1 2 0 0⟩

theorem twoqExpOf_fire (t : TwoQ) (a b c k : Nat) :
    twoqExpOf (fireTwoq t a b c) k = twoqExpOf t k := by
  unfold twoqExpOf fireTwoq; split <;> rfl

theorem twoqEvict_expOf (s s' : TwoQ) (h : twoqEvict s = some s') (k : Nat) :
    twoqExpOf s' k = twoqExpOf s k ∨ twoqExpOf s' k = none := by
  unfold twoqEvict at h
  by_cases ha1 : s.a1.length > 0
  · rw [if_pos ha1] at h
    cases hg : s.a1.getLast? with
    | none => simp only [hg] at h; exact Option.noConfusion h
    | some ele =>
      simp only [hg] at h
      cases he : lookupA s.ents ele.ent with
      | none => simp only [he] at h; exact Option.noConfusion h
      | some ent =>
        simp only [he, Option.some.injEq] at h
        subst h
        rw [twoqExpOf_fire]
        by_cases hk : ent.key = k
        · right; subst hk
          unfold twoqExpOf
          split_ifs <;> simp [lookupA_delA_self]
        · left
          unfold twoqExpOf
          split_ifs <;> simp [lookupA_delA_ne _ _ _ hk]
  · rw [if_neg ha1] at h
    by_cases ha2 : s.a2.length > 0
    · rw [if_pos ha2] at h
      cases hg : s.a2.getLast? with
      | none => simp only [hg] at h; exact Option.noConfusion h
      | some ele =>
        simp only [hg] at h
        cases he : lookupA s.ents ele.ent with
        | none => simp only [he] at h; exact Option.noConfusion h
        | some ent =>
          simp only [he, Option.some.injEq] at h
          subst h
          rw [twoqExpOf_fire]
          by_cases hk : ent.key = k
          · right; subst hk
            unfold twoqExpOf
            simp [lookupA_delA_self]
          · left
            unfold twoqExpOf
            simp [lookupA_delA_ne _ _ _ hk]
    · rw [if_neg ha2] at h
      simp only [Option.some.injEq] at h
      subst h
      left; rfl

theorem arcExpOf_fire (t : ArcCache) (a b c k : Nat) :
    arcExpOf (fireArc t a b c) k = arcExpOf t k := by
  unfold arcExpOf fireArc; split <;> rfl

theorem arcEvict_expOf (s s' : ArcCache) (h : arcEvict s = some s') (k : Nat) :
    arcExpOf s' k = arcExpOf s k ∨ arcExpOf s' k = none := by
  unfold arcEvict at h
  by_cases hc : (s.t1.length : Int) ≥ arcMax 1 s.p
  · rw [if_pos hc] at h
    cases hg : s.t1.getLast? with
    | none => simp only [hg] at h; exact Option.noConfusion h
    | some ele =>
      simp only [hg] at h
      cases he : lookupA s.ents ele.ent with
      | none => simp only [he] at h; exact Option.noConfusion h
      | some ent =>
        simp only [he, Option.some.injEq] at h
        subst h
        rw [arcExpOf_fire]
        by_cases hk : ent.key = k
        · right; subst hk
          unfold arcExpOf
          split_ifs <;> simp [lookupA_delA_self]
        · left
          unfold arcExpOf
          split_ifs <;> simp [lookupA_delA_ne _ _ _ hk]
  · rw [if_neg hc] at h
    cases hg : s.t2.getLast? with
    | none => simp only [hg] at h; exact Option.noConfusion h
    | some ele =>
      simp only [hg] at h
      cases he : lookupA s.ents ele.ent with
      | none => simp only [he] at h; exact Option.noConfusion h
      | some ent =>
        simp only [he, Option.some.injEq] at h
        subst h
        rw [arcExpOf_fire]
        by_cases hk : ent.key = k
        · right; subst hk
          unfold arcExpOf
          split_ifs <;> simp [lookupA_delA_self]
        · left
          unfold arcExpOf
          split_ifs <;> simp [lookupA_delA_ne _ _ _ hk]

theorem randomExpOf_fire (t : RandomCache) (a b c k : Nat) :
    randomExpOf (fireRandom t a b c) k = randomExpOf t k := by
  unfold randomExpOf fireRandom; split <;> rfl

theorem randomEvict_expOf (s : RandomCache) (r k : Nat) :
    randomExpOf (randomEvictRandom s r) k = randomExpOf s k ∨
      randomExpOf (randomEvictRandom s r) k = none := by
  unfold randomEvictRandom
  by_cases hl : s.keys.length = 0
  · rw [if_pos hl]; left; rfl
  · rw [if_neg hl]
    cases he : lookupA s.entries (s.keys.getD (r % s.keys.length) 0) with
    | none =>
      left
      have he2 : lookupA s.entries (s.keys[r % s.keys.length]?.getD 0) = none := by
        simpa [List.getD] using he
      simp [he2]
    | some e =>
      simp only [he]
      by_cases hk : s.keys.getD (r % s.keys.length) 0 = k
      · right
        subst hk
        unfold randomExpOf
        by_cases hf : s.onEvicted.isSome <;>
          simp [fireRandom, hf, lookupA_delA_self]
      · left
        have hk2 : s.keys[r % s.keys.length]?.getD 0 ≠ k := by
          simpa [List.getD] using hk
        unfold randomExpOf
        by_cases hf : s.onEvicted.isSome <;>
          simp [fireRandom, hf, lookupA_delA_ne _ _ _ hk2]

theorem twoqSet_expOf (s s' : TwoQ) (k v : Nat) (dur now : Int)
    (h : twoqSet s k v dur now = some s') (e : Int)
    (hg : twoqExpOf s' k = some e) : e = twoqExpiration s.defaultTTL dur now := by
  unfold twoqSet at h
  cases hm : lookupA s.emap k with
  | some ele =>
    simp only [hm] at h
    cases he : lookupA s.ents ele.ent with
    | none => simp only [he] at h; exact Option.noConfusion h
    | some ent0 =>
      simp only [he, listRemove, Option.isSome_some, if_true, Option.some.injEq] at h
      subst h
      simp [twoqExpOf, lookupA_setA_self] at hg
      exact hg.symm
  | none =>
    simp only [hm] at h
    split at h
    · -- eviction ran
      rcases twoqEvict_expOf _ _ h k with hsame | hnone
      · rw [hsame] at hg
        simp [twoqExpOf, lookupA_setA_self, lookupA] at hg
        exact hg.symm
      · rw [hnone] at hg; exact Option.noConfusion hg
    · simp only [Option.some.injEq] at h
      subst h
      simp [twoqExpOf, lookupA_setA_self, lookupA] at hg
      exact hg.symm

theorem arcSetInsert_expOf (s1 s' : ArcCache) (k v : Nat) (exp : Int)
    (h : arcSetInsert s1 k v exp = some s') (e : Int) (hg : arcExpOf s' k = some e) :
    e = exp := by
  unfold arcSetInsert at h
  dsimp only at h
  split at h
  · rcases arcEvict_expOf _ _ h k with hsame | hnone
    · rw [hsame] at hg
      simp [arcExpOf, lookupA_setA_self, lookupA] at hg
      exact hg.symm
    · rw [hnone] at hg; exact Option.noConfusion hg
  · simp only [Option.some.injEq] at h
    subst h
    simp [arcExpOf, lookupA_setA_self, lookupA] at hg
    exact hg.symm

theorem arcSet_expOf (s s' : ArcCache) (k v : Nat) (dur now : Int)
    (h : arcSet s k v dur now = some s') (e : Int) (hg : arcExpOf s' k = some e) :
    e = arcExpiration s.defaultTTL dur now := by
  unfold arcSet at h
  cases hm : lookupA s.emap k with
  | some ele =>
    simp only [hm] at h
    cases he : lookupA s.ents ele.ent with
    | none => simp only [he] at h; exact Option.noConfusion h
    | some ent0 =>
      simp only [he, listRemove, Option.isSome_some, if_true, Option.some.injEq] at h
      subst h
      simp [arcExpOf, lookupA_setA_self] at hg
      exact hg.symm
  | none =>
    simp only [hm] at h
    cases hb : arcSetGhost s k with
    | none => rw [hb] at h; exact Option.noConfusion h
    | some s1 =>
      rw [hb, Option.some_bind] at h
      exact arcSetInsert_expOf s1 s' k v _ h e hg

theorem randomSet_expOf (s : RandomCache) (k v : Nat) (dur now : Int) (r : Nat)
    (e : Int) (hg : randomExpOf (randomSet s k v dur now r) k = some e) :
    e = randomExpiration s.defaultTTL dur now := by
  unfold randomSet at hg
  cases hm : lookupA s.entries k with
  | some e0 =>
    simp only [hm] at hg
    simp [randomExpOf, lookupA_setA_self] at hg
    exact hg.symm
  | none =>
    simp only [hm] at hg
    split at hg
    · rcases randomEvict_expOf _ r k with hsame | hnone
      · rw [hsame] at hg
        simp [randomExpOf, lookupA_setA_self] at hg
        exact hg.symm
      · rw [hnone] at hg; exact Option.noConfusion hg
    · simp [randomExpOf, lookupA_setA_self] at hg
      exact hg.symm

theorem lruSet_expOf (s : LruCache) (k v : Nat) (dur now : Int) :
    lruExpOf (lruSet s k v dur now) k = some (lruExpiration s.defaultTTL dur now) := by
  unfold lruSet
  cases hm : ((s.ll).getD []).find? (fun e => e.key == k) with
  | some e0 =>
    simp only [hm]
    simp [lruExpOf, List.find?]
  | none =>
    simp only [hm]
    simp [lruExpOf, List.find?]

theorem lookupA_setA_ne {α : Type} (m : List (Nat × α)) (j k : Nat) (v : α) (h : j ≠ k) :
    lookupA (setA m j v) k = lookupA m k := by
  induction m with
  | nil => simp [setA, lookupA, h]
  | cons hd t ih =>
    by_cases hj : hd.1 = j
    · have hk : hd.1 ≠ k := by omega
      simp [setA, hj, lookupA, h, hk]
    · simp only [setA, if_neg hj]
      by_cases hk : hd.1 = k
      · simp [lookupA, hk]
      · simp [lookupA, hk, ih]

theorem lfuSet_expOf (s s' : LfuCache) (k v : Nat) (dur now : Int)
    (h : lfuSet s k v dur now = some s') :
    lfuExpOf s' k = some (lfuExpiration s.defaultTTL dur now) := by
  unfold lfuSet at h
  cases hm : lookupA ((s.entries).getD []) k with
  | some e0 =>
    simp only [hm] at h
    unfold lfuIncrementFrequency at h
    cases hf : s.freqList with
    | none => simp only [hf] at h; exact Option.noConfusion h
    | some fl =>
      simp only [hf] at h
      cases hb : lookupA fl e0.freq with
      | none => simp only [hb] at h; exact Option.noConfusion h
      | some bucket =>
        simp only [hb, Option.some.injEq] at h
        subst h
        unfold lfuExpOf
        by_cases hk : e0.key = k
        · simp [lookupA_setA_self, hk]
        · simp [lookupA_setA_ne _ _ _ _ hk, lookupA_setA_self]
  | none =>
    simp only [hm] at h
    split at h
    · exact Option.noConfusion h
    · rename_i s1 heq
      cases hen : s1.entries with
      | none => simp only [hen] at h; exact Option.noConfusion h
      | some ents1 =>
        simp only [hen] at h
        cases hfl : s1.freqList with
        | none => simp only [hfl] at h; exact Option.noConfusion h
        | some fl =>
          simp only [hfl, Option.some.injEq] at h
          subst h
          simp [lfuExpOf, lookupA_setA_self]

/-- C2: TTL semantics of Set. With ttl ≤ 0 and a configured default TTL the
entry gets the default TTL in every policy. With ttl > 0, lru and lfu cap
the requested TTL at a configured smaller default TTL, while arc, twoq and
random store the requested TTL unchanged (whatever entry for the key remains
after Set carries exactly that expiration). -/
theorem C2_ttl_default_and_capping :
    (∀ (s : LruCache) (k v : Nat) (dur now : Int), dur ≤ 0 → s.defaultTTL > 0 →
        lruExpOf (lruSet s k v dur now) k = some (now + s.defaultTTL)) ∧
    (∀ (s : LruCache) (k v : Nat) (dur now : Int), dur > 0 → s.defaultTTL > 0 →
        dur > s.defaultTTL →
        lruExpOf (lruSet s k v dur now) k = some (now + s.defaultTTL)) ∧
    (∀ (s s' : LfuCache) (k v : Nat) (dur now : Int), dur ≤ 0 → s.defaultTTL > 0 →
        lfuSet s k v dur now = some s' → lfuExpOf s' k = some (now + s.defaultTTL)) ∧
    (∀ (s s' : LfuCache) (k v : Nat) (dur now : Int), dur > 0 → s.defaultTTL > 0 →
        dur > s.defaultTTL → lfuSet s k v dur now = some s' →
        lfuExpOf s' k = some (now + s.defaultTTL)) ∧
    (∀ (s s' : ArcCache) (k v : Nat) (dur now e : Int), dur > 0 →
        arcSet s k v dur now = some s' → arcExpOf s' k = some e → e = now + dur) ∧
    (∀ (s s' : ArcCache) (k v : Nat) (dur now e : Int), dur ≤ 0 →
        s.defaultTTL > 0 → arcSet s k v dur now = some s' → arcExpOf s' k = some e →
        e = now + s.defaultTTL) ∧
    (∀ (s s' : TwoQ) (k v : Nat) (dur now e : Int), dur > 0 →
        twoqSet s k v dur now = some s' → twoqExpOf s' k = some e → e = now + dur) ∧
    (∀ (s s' : TwoQ) (k v : Nat) (dur now e : Int), dur ≤ 0 →
        s.defaultTTL > 0 → twoqSet s k v dur now = some s' → twoqExpOf s' k = some e →
        e = now + s.defaultTTL) ∧
    (∀ (s : RandomCache) (k v : Nat) (dur now : Int) (r : Nat) (e : Int), dur > 0 →
        randomExpOf (randomSet s k v dur now r) k = some e → e = now + dur) ∧
    (∀ (s : RandomCache) (k v : Nat) (dur now : Int) (r : Nat) (e : Int), dur ≤ 0 →
        s.defaultTTL > 0 → randomExpOf (randomSet s k v dur now r) k = some e →
        e = now + s.defaultTTL) := by
  refine ⟨?_, ?_, ?_, ?_, ?_, ?_, ?_, ?_, ?_, ?_⟩
  · intro s k v dur now hd hT
    rw [lruSet_expOf]
    have hnd : ¬ (dur > 0) := by omega
    simp [lruExpiration, hnd, hT]
  · intro s k v dur now hd hT hcap
    rw [lruSet_expOf]
    simp [lruExpiration, hd, hT, hcap]
  · intro s s' k v dur now hd hT h
    rw [lfuSet_expOf s s' k v dur now h]
    have hnd : ¬ (dur > 0) := by omega
    simp [lfuExpiration, hnd, hT]
  · intro s s' k v dur now hd hT hcap h
    rw [lfuSet_expOf s s' k v dur now h]
    simp [lfuExpiration, hd, hT, hcap]
  · intro s s' k v dur now e hd h hg
    rw [arcSet_expOf s s' k v dur now h e hg]
    simp [arcExpiration, hd]
  · intro s s' k v dur now e hd hT h hg
    rw [arcSet_expOf s s' k v dur now h e hg]
    have hnd : ¬ (dur > 0) := by omega
    simp [arcExpiration, hnd, hT]
  · intro s s' k v dur now e hd h hg
    rw [twoqSet_expOf s s' k v dur now h e hg]
    simp [twoqExpiration, hd]
  · intro s s' k v dur now e hd hT h hg
    rw [twoqSet_expOf s s' k v dur now h e hg]
    have hnd : ¬ (dur > 0) := by omega
    simp [twoqExpiration, hnd, hT]
  · intro s k v dur now r e hd hg
    rw [randomSet_expOf s k v dur now r e hg]
    simp [randomExpiration, hd]
  · intro s k v dur now r e hd hT hg
    rw [randomSet_expOf s k v dur now r e hg]
    have hnd : ¬ (dur > 0) := by omega
    simp [randomExpiration, hnd, hT]

/-- Witness for C2 at concrete caches with default TTL 10. -/
theorem C2_ttl_default_and_capping_witness :
    lruExpOf (lruSet { lruNew 0 0 with defaultTTL := 10 } 1 2 0 5) 1 = some 15 ∧
    lruExpOf (lruSet { lruNew 0 0 with defaultTTL := 10 } 1 2 50 5) 1 = some 15 ∧
    lfuExpOf ((lfuSet { lfuNew 0 0 with defaultTTL := 10 } 1 2 0 5).getD (lfuNew 0 0)) 1 =
      some 15 ∧
    lfuExpOf ((lfuSet { lfuNew 0 0 with defaultTTL := 10 } 1 2 50 5).getD (lfuNew 0 0)) 1 =
      some 15 ∧
    (55 : Int) = 5 + 50 ∧
    (15 : Int) = 5 + 10 ∧
    (55 : Int) = 5 + 50 ∧
    (15 : Int) = 5 + 10 ∧
    (55 : Int) = 5 + 50 ∧
    (15 : Int) = 5 + 10 :=
  ⟨C2_ttl_default_and_capping.1 _ 1 2 0 5 (by decide) (by decide),
   C2_ttl_default_and_capping.2.1 _ 1 2 50 5 (by decide) (by decide) (by decide),
   C2_ttl_default_and_capping.2.2.1 { lfuNew 0 0 with defaultTTL := 10 }
     ((lfuSet { lfuNew 0 0 with defaultTTL := 10 } 1 2 0 5).getD (lfuNew 0 0)) 1 2 0 5
     (by decide) (by decide) (by decide),
   C2_ttl_default_and_capping.2.2.2.1 { lfuNew 0 0 with defaultTTL := 10 }
     ((lfuSet { lfuNew 0 0 with defaultTTL := 10 } 1 2 50 5).getD (lfuNew 0 0)) 1 2 50 5
     (by decide) (by decide) (by decide) (by decide),
   C2_ttl_default_and_capping.2.2.2.2.1 (arcNew 5 0)
     ((arcSet (arcNew 5 0) 1 2 50 5).getD (arcNew 0 0)) 1 2 50 5 55 (by decide)
     (by decide) (by decide),
   C2_ttl_default_and_capping.2.2.2.2.2.1 { arcNew 5 0 with defaultTTL := 10 }
     ((arcSet { arcNew 5 0 with defaultTTL := 10 } 1 2 0 5).getD (arcNew 0 0)) 1 2 0 5 15
     (by decide) (by decide) (by decide) (by decide),
   C2_ttl_default_and_capping.2.2.2.2.2.2.1 (twoqNew 5 0)
     ((twoqSet (twoqNew 5 0) 1 2 50 5).getD (twoqNew 0 0)) 1 2 50 5 55 (by decide)
     (by decide) (by decide),
   C2_ttl_default_and_capping.2.2.2.2.2.2.2.1 { twoqNew 5 0 with defaultTTL := 10 }
     ((twoqSet { twoqNew 5 0 with defaultTTL := 10 } 1 2 0 5).getD (twoqNew 0 0)) 1 2 0 5
     15 (by decide) (by decide) (by decide) (by decide),
   C2_ttl_default_and_capping.2.2.2.2.2.2.2.2.1 (randomNew 5 0) 1 2 50 5 0 55
     (by decide) (by decide),
   C2_ttl_default_and_capping.2.2.2.2.2.2.2.2.2 { randomNew 5 0 with defaultTTL := 10 }
     1 2 0 5 0 15 (by decide) (by decide) (by decide)⟩

theorem find?_key_filter_none {α : Type} (f : α → Nat) (l : List α) (a : Nat) :
    (l.filter (fun x => f x != a)).find? (fun x => f x == a) = none := by
  rw [List.find?_eq_none]
  intro x hx
  have hmem := (List.mem_filter.mp hx).2
  simpa using hmem

/-- C9: a Get of a key whose expiration has passed (with a registered
callback) returns a miss, removes the entry from the entries map, and
appends exactly one ExpirationEvent notification in the lru, lfu, arc and
twoq policies; in the random policy the same Get just returns a miss and by
construction (randomGet is a pure read) changes nothing. -/
theorem C9_expired_get :
    (∀ (s : LruCache) (l : List LruEntry) (e : LruEntry) (k : Nat) (now : Int),
        s.ll = some l → l.find? (fun x => x.key == k) = some e →
        e.expiration > 0 → now > e.expiration → s.onEvicted.isSome →
        (lruGet s k now).1 = none ∧
        (((lruGet s k now).2.ll).getD []).find? (fun x => x.key == k) = none ∧
        (lruGet s k now).2.log = s.log ++ [(k, e.value, ExpirationEvent)]) ∧
    (∀ (s : LfuCache) (e : LfuEntry) (fl : List (Nat × List Nat))
        (bucket : List Nat) (k : Nat) (now : Int),
        lookupA ((s.entries).getD []) k = some e → s.freqList = some fl →
        lookupA fl e.freq = some bucket →
        e.expiration > 0 → now > e.expiration → s.onEvicted.isSome →
        (lfuGet s k now).map (fun r => r.1) = some none ∧
        (lfuGet s k now).map (fun r => lookupA ((r.2.entries).getD []) k) = some none ∧
        (lfuGet s k now).map (fun r => r.2.log) =
          some (s.log ++ [(e.key, e.value, ExpirationEvent)])) ∧
    (∀ (s : ArcCache) (ele : ElemRef) (ent : Ent) (k : Nat) (now : Int),
        lookupA s.emap k = some ele → lookupA s.ents ele.ent = some ent →
        ent.key = k → ent.expiration > 0 → now > ent.expiration → s.onEvicted.isSome →
        (arcGet s k now).map (fun r => r.1) = some none ∧
        (arcGet s k now).map (fun r => lookupA r.2.emap k) = some none ∧
        (arcGet s k now).map (fun r => r.2.log) =
          some (s.log ++ [(k, ent.value, ExpirationEvent)])) ∧
    (∀ (s : TwoQ) (ele : ElemRef) (ent : Ent) (k : Nat) (now : Int),
        lookupA s.emap k = some ele → lookupA s.ents ele.ent = some ent →
        ent.key = k → ent.expiration > 0 → now > ent.expiration → s.onEvicted.isSome →
        (twoqGet s k now).map (fun r => r.1) = some none ∧
        (twoqGet s k now).map (fun r => lookupA r.2.emap k) = some none ∧
        (twoqGet s k now).map (fun r => r.2.log) =
          some (s.log ++ [(k, ent.value, ExpirationEvent)])) ∧
    (∀ (s : RandomCache) (e : RandomEntry) (k : Nat) (now : Int),
        lookupA s.entries k = some e → e.expiration > 0 → now > e.expiration →
        randomGet s k now = none) := by
  refine ⟨?_, ?_, ?_, ?_, ?_⟩
  · intro s l e k now hll hfind hexp hnow hcb
    have hek : e.key = k := by
      have hp := List.find?_some hfind
      simpa using hp
    simp only [lruGet, hll, hfind, if_pos (And.intro hexp hnow)]
    refine ⟨by trivial, ?_, ?_⟩
    · simp [lruRemoveElement, fireLru, hcb, hek,
        find?_key_filter_none (fun x : LruEntry => x.key)]
    · simp [lruRemoveElement, fireLru, hcb, hek]
  · intro s e fl bucket k now hm hfl hb hexp hnow hcb
    simp only [lfuGet, hm, if_pos (And.intro hexp hnow)]
    refine ⟨rfl, ?_, ?_⟩
    · simp [lfuRemoveEntry, hfl, hb, fireLfu, hcb, lookupA_delA_self]
    · simp [lfuRemoveEntry, hfl, hb, fireLfu, hcb]
  · intro s ele ent k now hm he hk hexp hnow hcb
    simp only [arcGet, hm, he, if_pos (And.intro hexp hnow)]
    simp only [arcRemoveElement, he, listRemove]
    refine ⟨rfl, ?_, ?_⟩
    · simp [fireArc, hcb, hk, lookupA_delA_self]
    · simp [fireArc, hcb, hk]
  · intro s ele ent k now hm he hk hexp hnow hcb
    simp only [twoqGet, hm, he, if_pos (And.intro hexp hnow)]
    simp only [twoqRemoveElement, he, listRemove]
    refine ⟨rfl, ?_, ?_⟩
    · simp [fireTwoq, hcb, hk, lookupA_delA_self]
    · simp [fireTwoq, hcb, hk]
  · intro s e k now hm hexp hnow
    simp [randomGet, hm, hexp, hnow]

/-- Witness for C9: one expired entry (expiration 5, read at instant 10) per
policy. -/
theorem C9_expired_get_witness :
    ((lruGet { lruNew 0 0 with ll := some [{ key := 1, value := 7, expiration := 5 }], onEvicted := some 3 } 1 10).1 = none ∧
      (((lruGet { lruNew 0 0 with ll := some [{ key := 1, value := 7, expiration := 5 }], onEvicted := some 3 } 1 10).2.ll).getD []).find? (fun x => x.key == 1) = none ∧
      (lruGet { lruNew 0 0 with ll := some [{ key := 1, value := 7, expiration := 5 }], onEvicted := some 3 } 1 10).2.log = [(1, 7, ExpirationEvent)]) ∧
    ((lfuGet { lfuNew 0 0 with entries := some [(1, { key := 1, value := 7, freq := 1, expiration := 5 })], freqList := some [(1, [1])], onEvicted := some 3 } 1 10).map (fun r => r.1) = some none ∧
      (lfuGet { lfuNew 0 0 with entries := some [(1, { key := 1, value := 7, freq := 1, expiration := 5 })], freqList := some [(1, [1])], onEvicted := some 3 } 1 10).map (fun r => lookupA ((r.2.entries).getD []) 1) = some none ∧
      (lfuGet { lfuNew 0 0 with entries := some [(1, { key := 1, value := 7, freq := 1, expiration := 5 })], freqList := some [(1, [1])], onEvicted := some 3 } 1 10).map (fun r => r.2.log) = some [(1, 7, ExpirationEvent)]) ∧
    ((arcGet { arcNew 0 0 with emap := [(1, { id := 0, ent := 0 })], ents := [(0, { key := 1, value := 7, expiration := 5 })], t1 := [{ id := 0, ent := 0 }], onEvicted := some 3 } 1 10).map (fun r => r.1) = some none ∧
      (arcGet { arcNew 0 0 with emap := [(1, { id := 0, ent := 0 })], ents := [(0, { key := 1, value := 7, expiration := 5 })], t1 := [{ id := 0, ent := 0 }], onEvicted := some 3 } 1 10).map (fun r => lookupA r.2.emap 1) = some none ∧
      (arcGet { arcNew 0 0 with emap := [(1, { id := 0, ent := 0 })], ents := [(0, { key := 1, value := 7, expiration := 5 })], t1 := [{ id := 0, ent := 0 }], onEvicted := some 3 } 1 10).map (fun r => r.2.log) = some [(1, 7, ExpirationEvent)]) ∧
    ((twoqGet { twoqNew 0 0 with emap := [(1, { id := 0, ent := 0 })], ents := [(0, { key := 1, value := 7, expiration := 5 })], a1 := [{ id := 0, ent := 0 }], onEvicted := some 3 } 1 10).map (fun r => r.1) = some none ∧
      (twoqGet { twoqNew 0 0 with emap := [(1, { id := 0, ent := 0 })], ents := [(0, { key := 1, value := 7, expiration := 5 })], a1 := [{ id := 0, ent := 0 }], onEvicted := some 3 } 1 10).map (fun r => lookupA r.2.emap 1) = some none ∧
      (twoqGet { twoqNew 0 0 with emap := [(1, { id := 0, ent := 0 })], ents := [(0, { key := 1, value := 7, expiration := 5 })], a1 := [{ id := 0, ent := 0 }], onEvicted := some 3 } 1 10).map (fun r => r.2.log) = some [(1, 7, ExpirationEvent)]) ∧
    randomGet { randomNew 0 0 with entries := [(1, { key := 1, value := 7, expiration := 5 })], keys := [1] } 1 10 = none :=
  ⟨C9_expired_get.1 _ [{ key := 1, value := 7, expiration := 5 }]
      { key := 1, value := 7, expiration := 5 } 1 10 rfl rfl (by decide) (by decide) rfl,
   C9_expired_get.2.1 _ { key := 1, value := 7, freq := 1, expiration := 5 } [(1, [1])]
      [1] 1 10 rfl rfl rfl (by decide) (by decide) rfl,
   C9_expired_get.2.2.1 _ { id := 0, ent := 0 } { key := 1, value := 7, expiration := 5 }
      1 10 rfl rfl rfl (by decide) (by decide) rfl,
   C9_expired_get.2.2.2.1 _ { id := 0, ent := 0 }
      { key := 1, value := 7, expiration := 5 } 1 10 rfl rfl rfl (by decide) (by decide)
      rfl,
   C9_expired_get.2.2.2.2 _ { key := 1, value := 7, expiration := 5 } 1 10 rfl
      (by decide) (by decide)⟩

theorem filterMap_if_eq_filter_map {α β : Type} (f : α → Option β) (g : α → Bool)
    (h : α → β) (l : List α) (hf : ∀ x, f x = if g x then some (h x) else none) :
    l.filterMap f = (l.filter g).map h := by
  induction l with
  | nil => simp
  | cons a t ih =>
    rw [List.filterMap_cons, List.filter_cons]
    by_cases hg : g a = true
    · rw [hf a, if_pos hg, hg]
      simp [ih]
    · rw [hf a, if_neg hg]
      simp only [hg, Bool.false_eq_true, if_false]
      exact ih

/-- C4 amended: Keys() returns exactly the live keys and Len() the live
count in the twoq, arc and random policies (expired entries filtered on
read, not removed), but lru and lfu do not filter: their Keys returns every
stored key and their Len the raw store size, expired entries included (the
concrete random conjuncts exhibit the filtering on a state holding one
expired and one never-expiring entry). -/
theorem C4_keys_len_liveness_amended :
    (∀ (s : TwoQ) (now : Int), twoqKeys s now = twoqSpecLiveKeys s now ∧
        twoqLen s now = (twoqSpecLiveKeys s now).length) ∧
    (∀ (s : ArcCache) (now : Int), arcKeys s now = arcSpecLiveKeys s now ∧
        arcLen s now = (arcSpecLiveKeys s now).length) ∧
    (∀ (s : RandomCache) (now : Int) (k : Nat), k ∈ randomKeys s now →
        ∃ e, lookupA s.entries k = some e ∧
          (e.expiration = 0 ∨ now ≤ e.expiration)) ∧
    (randomLen { randomNew 0 0 with
        entries := [(1, { key := 1, value := 7, expiration := 5 }),
          (2, { key := 2, value := 8, expiration := 0 })], keys := [1, 2] } 10 = 1 ∧
      randomKeys { randomNew 0 0 with
        entries := [(1, { key := 1, value := 7, expiration := 5 }),
          (2, { key := 2, value := 8, expiration := 0 })], keys := [1, 2] } 10 = [2]) ∧
    (∀ s : LruCache, lruLen s = (lruKeys s).length ∧
        lruKeys s = ((s.ll).getD []).map (fun e => e.key)) ∧
    (∀ s : LfuCache, lfuLen s = (lfuKeys s).length ∧
        lfuKeys s = ((s.entries).getD []).map (fun p => p.1)) := by
  refine ⟨?_, ?_, ?_, by decide, ?_, ?_⟩
  · intro s now
    constructor
    · exact filterMap_if_eq_filter_map _ _ _ _ (fun x => by
        cases lookupA s.ents x.2.ent <;> simp [twoqKeys])
    · simp [twoqLen, twoqSpecLiveKeys]
  · intro s now
    constructor
    · exact filterMap_if_eq_filter_map _ _ _ _ (fun x => by
        cases lookupA s.ents x.2.ent <;> simp [arcKeys])
    · simp [arcLen, arcSpecLiveKeys]
  · intro s now k hk
    unfold randomKeys at hk
    rw [List.mem_filterMap] at hk
    obtain ⟨a, _, hfa⟩ := hk
    cases he : lookupA s.entries a with
    | none => rw [he] at hfa; exact Option.noConfusion hfa
    | some e =>
      rw [he] at hfa
      by_cases hlive : e.expiration = 0 ∨ now ≤ e.expiration
      · obtain rfl : a = k := by simpa [hlive] using hfa
        exact ⟨e, he, hlive⟩
      · simp [hlive] at hfa
  · intro s
    cases hll : s.ll <;> simp [lruLen, lruKeys, hll]
  · intro s
    cases hen : s.entries <;> simp [lfuLen, lfuKeys, hen]

/-- Witness for C4 at a concrete random cache holding one expired and one
live entry at instant 10. -/
theorem C4_keys_len_liveness_amended_witness :
    2 ∈ randomKeys { randomNew 0 0 with
      entries := [(1, { key := 1, value := 7, expiration := 5 }),
        (2, { key := 2, value := 8, expiration := 0 })], keys := [1, 2] } 10 ∧
    ∃ e, lookupA ({ randomNew 0 0 with
      entries := [(1, { key := 1, value := 7, expiration := 5 }),
        (2, { key := 2, value := 8, expiration := 0 })], keys := [1, 2] } :
        RandomCache).entries 2 = some e ∧
      (e.expiration = 0 ∨ (10 : Int) ≤ e.expiration) :=
  ⟨by decide,
   C4_keys_len_liveness_amended.2.2.1 { randomNew 0 0 with
      entries := [(1, { key := 1, value := 7, expiration := 5 }),
        (2, { key := 2, value := 8, expiration := 0 })], keys := [1, 2] } 10 2
     (by decide)⟩

theorem sortSearchGo_spec (f : Nat → Bool) (n : Nat) :
    ∀ (fuel i j : Nat), i ≤ j → j ≤ n → j - i ≤ fuel →
    (∀ a b, a ≤ b → b < n → f a = true → f b = true) →
    (∀ a, a < i → f a = false) →
    (∀ b, j ≤ b → b < n → f b = true) →
    i ≤ sortSearchGo f fuel i j ∧ sortSearchGo f fuel i j ≤ j ∧
      (∀ a, a < sortSearchGo f fuel i j → f a = false) ∧
      (sortSearchGo f fuel i j < n → f (sortSearchGo f fuel i j) = true) := by
  intro fuel
  induction fuel with
  | zero =>
    intro i j hij hjn hfuel hmono hlow hhigh
    have hji : i = j := by omega
    simp only [sortSearchGo]
    exact ⟨le_refl i, le_of_eq hji, hlow, fun hin => hhigh i (by omega) hin⟩
  | succ fuel ih =>
    intro i j hij hjn hfuel hmono hlow hhigh
    simp only [sortSearchGo]
    by_cases hlt : i < j
    · rw [if_pos hlt]
      have hm1 : i ≤ (i + j) / 2 := by omega
      have hm2 : (i + j) / 2 < j := by omega
      by_cases hfm : f ((i + j) / 2) = true
      · simp only [hfm, Bool.not_true, Bool.false_eq_true, if_false]
        obtain ⟨h1, h2, h3, h4⟩ := ih i ((i + j) / 2) hm1 (by omega) (by omega) hmono hlow
          (fun b hb hbn => hmono ((i + j) / 2) b hb hbn hfm)
        exact ⟨h1, by omega, h3, h4⟩
      · have hfm' : f ((i + j) / 2) = false := by
          cases hx : f ((i + j) / 2)
          · rfl
          · exact absurd hx hfm
        simp only [hfm', Bool.not_false, if_true]
        have hlow' : ∀ a, a < (i + j) / 2 + 1 → f a = false := by
          intro a ha
          by_cases hai : a < i
          · exact hlow a hai
          · cases hx : f a
            · rfl
            · exact absurd (hmono a ((i + j) / 2) (by omega) (by omega) hx) (by
                rw [hfm']; simp)
        obtain ⟨h1, h2, h3, h4⟩ := ih ((i + j) / 2 + 1) j (by omega) hjn (by omega) hmono
          hlow' hhigh
        exact ⟨by omega, h2, h3, h4⟩
    · rw [if_neg hlt]
      have hji : i = j := by omega
      exact ⟨le_refl i, le_of_eq hji, hlow, fun hin => hhigh i (by omega) hin⟩

theorem find?_eq_some_getD (ks : List Nat) (p : Nat → Bool) :
    ∀ (r : Nat), r < ks.length → (∀ a, a < r → p (ks.getD a 0) = false) →
    p (ks.getD r 0) = true → ks.find? p = some (ks.getD r 0) := by
  induction ks with
  | nil => intro r hr; simp at hr
  | cons x t ih =>
    intro r hr hbefore hat
    cases r with
    | zero =>
      simp only [List.getD_cons_zero] at hat
      simp [List.find?, hat]
    | succ r' =>
      have hx : p x = false := by
        have := hbefore 0 (Nat.succ_pos r')
        simpa using this
      simp only [List.getD_cons_succ] at hat
      rw [List.find?, hx]
      rw [List.getD_cons_succ]
      exact ih r' (by simpa using hr) (fun a ha => by
        have := hbefore (a + 1) (by omega)
        simpa using this) hat

theorem find?_eq_none_of_all (ks : List Nat) (p : Nat → Bool)
    (h : ∀ a, a < ks.length → p (ks.getD a 0) = false) : ks.find? p = none := by
  rw [List.find?_eq_none]
  intro x hx
  obtain ⟨i, hi⟩ := List.mem_iff_get.mp hx
  intro hpx
  have hgd : ks.getD i 0 = x := by
    rw [List.getD_eq_getElem?_getD, List.getElem?_eq_getElem i.isLt]
    simpa using hi
  have := h i i.isLt
  rw [hgd, hpx] at this
  exact Bool.noConfusion this

theorem sorted_getD_mono (ks : List Nat) (hs : ks.Pairwise (fun a b => a ≤ b))
    (a b : Nat) (hab : a ≤ b) (hb : b < ks.length) : ks.getD a 0 ≤ ks.getD b 0 := by
  rcases Nat.lt_or_ge a b with hlt | hge
  · have hpw := List.pairwise_iff_get.mp hs ⟨a, by omega⟩ ⟨b, hb⟩ hlt
    have ha : ks.getD a 0 = ks.get ⟨a, by omega⟩ := by
      rw [List.getD_eq_getElem?_getD, List.getElem?_eq_getElem (by omega : a < ks.length)]
      simp [List.get_eq_getElem]
    have hbq : ks.getD b 0 = ks.get ⟨b, hb⟩ := by
      rw [List.getD_eq_getElem?_getD, List.getElem?_eq_getElem hb]
      simp [List.get_eq_getElem]
    rw [ha, hbq]
    exact hpw
  · have : a = b := by omega
    subst this
    exact le_refl _

/-- C8: GetNode on an empty ring returns the empty string; on a non-empty
ring with sorted points it returns the node mapped to the first point whose
hash is at least the key's hash, or the node of the first point when no such
point exists (wrap-around). -/
theorem C8_getNode_spec (c : CHash) (key : String)
    (hs : c.keys.Pairwise (fun a b => a ≤ b)) :
    (c.keys = [] → getNode c key = ("")) ∧
    (c.keys ≠ [] → getNode c key = nodeOf c.nodeMap
      ((c.keys.find? (fun x => decide (c.hashFunc key ≤ x))).getD (c.keys.headD 0))) := by
  constructor
  · intro h; simp [getNode, h]
  · intro hne
    have hn : 0 < c.keys.length := List.length_pos.mpr hne
    unfold getNode
    rw [if_neg (by omega)]
    dsimp only
    have hmono : ∀ a b, a ≤ b → b < c.keys.length →
        (fun i => decide (c.keys.getD i 0 ≥ c.hashFunc key)) a = true →
        (fun i => decide (c.keys.getD i 0 ≥ c.hashFunc key)) b = true := by
      intro a b hab hb ha
      simp only [ge_iff_le, decide_eq_true_eq] at ha ⊢
      exact le_trans ha (sorted_getD_mono c.keys hs a b hab hb)
    obtain ⟨h1, h2, h3, h4⟩ := sortSearchGo_spec
      (fun i => decide (c.keys.getD i 0 ≥ c.hashFunc key)) c.keys.length c.keys.length 0
      c.keys.length (Nat.zero_le _) (le_refl _) (by omega) hmono
      (fun a ha => absurd ha (Nat.not_lt_zero a))
      (fun b hb hbn => absurd hbn (by omega))
    unfold sortSearch
    rcases Nat.lt_or_ge (sortSearchGo
        (fun i => decide (c.keys.getD i 0 ≥ c.hashFunc key)) c.keys.length 0
        c.keys.length) c.keys.length with hrlt | hrge
    · rw [if_neg (by omega)]
      have hfind : c.keys.find? (fun x => decide (c.hashFunc key ≤ x)) =
          some (c.keys.getD (sortSearchGo
            (fun i => decide (c.keys.getD i 0 ≥ c.hashFunc key)) c.keys.length 0
            c.keys.length) 0) := by
        refine find?_eq_some_getD _ _ _ hrlt ?_ ?_
        · intro a ha
          have := h3 a ha
          simpa [ge_iff_le] using this
        · have := h4 hrlt
          simpa [ge_iff_le] using this
      rw [hfind]
      rfl
    · have hreq : sortSearchGo
          (fun i => decide (c.keys.getD i 0 ≥ c.hashFunc key)) c.keys.length 0
          c.keys.length = c.keys.length := by omega
      rw [if_pos hreq]
      have hfind : c.keys.find? (fun x => decide (c.hashFunc key ≤ x)) = none := by
        refine find?_eq_none_of_all _ _ ?_
        intro a ha
        have := h3 a (by omega)
        simpa [ge_iff_le] using this
      rw [hfind]
      rcases hks : c.keys with _ | ⟨x, t⟩
      · exact absurd hks hne
      · simp [hks]

/-- Witness for C8 on a two-point ring with a constant hash function: the
hash 15 falls between the points 10 and 20, so the key resolves to the node
of point 20. -/
theorem C8_getNode_spec_witness :
    getNode { hashFunc := fun _ => 15, replicas := 1, keys := [10, 20], nodeMap := [(10, "a"), (20, "b")], nodes := ["a", "b"] } ("k") = ("b") := by
  have h := (C8_getNode_spec { hashFunc := fun _ => 15, replicas := 1, keys := [10, 20], nodeMap := [(10, "a"), (20, "b")], nodes := ["a", "b"] } ("k") (by decide)).2 (by decide)
  rw [h]
  rfl

theorem fireArc_p (s : ArcCache) (k v e : Nat) :
    (fireArc s k v e).p = s.p ∧ (fireArc s k v e).maxEntries = s.maxEntries := by
  unfold fireArc; split <;> exact ⟨rfl, rfl⟩

theorem arcReplace_p (s s' : ArcCache) (h : arcReplace s = some s') :
    s'.p = s.p ∧ s'.maxEntries = s.maxEntries := by
  unfold arcReplace at h
  split at h
  · cases hg : s.t1.getLast? with
    | none => simp only [hg] at h; exact Option.noConfusion h
    | some ele =>
      simp only [hg] at h
      cases he : lookupA s.ents ele.ent with
      | none => simp only [he] at h; exact Option.noConfusion h
      | some ent =>
        simp only [he, Option.some.injEq] at h
        subst h
        rw [(fireArc_p _ _ _ _).1, (fireArc_p _ _ _ _).2]
        split_ifs <;> exact ⟨rfl, rfl⟩
  · cases hg : s.t2.getLast? with
    | none => simp only [hg] at h; exact Option.noConfusion h
    | some ele =>
      simp only [hg] at h
      cases he : lookupA s.ents ele.ent with
      | none => simp only [he] at h; exact Option.noConfusion h
      | some ent =>
        simp only [he, Option.some.injEq] at h
        subst h
        rw [(fireArc_p _ _ _ _).1, (fireArc_p _ _ _ _).2]
        split_ifs <;> exact ⟨rfl, rfl⟩

theorem arcEvict_p (s s' : ArcCache) (h : arcEvict s = some s') :
    s'.p = s.p ∧ s'.maxEntries = s.maxEntries := by
  unfold arcEvict at h
  split at h
  · cases hg : s.t1.getLast? with
    | none => simp only [hg] at h; exact Option.noConfusion h
    | some ele =>
      simp only [hg] at h
      cases he : lookupA s.ents ele.ent with
      | none => simp only [he] at h; exact Option.noConfusion h
      | some ent =>
        simp only [he, Option.some.injEq] at h
        subst h
        rw [(fireArc_p _ _ _ _).1, (fireArc_p _ _ _ _).2]
        split_ifs <;> exact ⟨rfl, rfl⟩
  · cases hg : s.t2.getLast? with
    | none => simp only [hg] at h; exact Option.noConfusion h
    | some ele =>
      simp only [hg] at h
      cases he : lookupA s.ents ele.ent with
      | none => simp only [he] at h; exact Option.noConfusion h
      | some ent =>
        simp only [he, Option.some.injEq] at h
        subst h
        rw [(fireArc_p _ _ _ _).1, (fireArc_p _ _ _ _).2]
        split_ifs <;> exact ⟨rfl, rfl⟩

theorem arcRemoveElement_p (s s' : ArcCache) (ele : ElemRef) (ev : Nat)
    (h : arcRemoveElement s ele ev = some s') :
    s'.p = s.p ∧ s'.maxEntries = s.maxEntries := by
  unfold arcRemoveElement at h
  cases he : lookupA s.ents ele.ent with
  | none => simp only [he] at h; exact Option.noConfusion h
  | some ent =>
    simp only [he, listRemove, Option.some.injEq] at h
    subst h
    rw [(fireArc_p _ _ _ _).1, (fireArc_p _ _ _ _).2]
    split_ifs <;> exact ⟨rfl, rfl⟩

theorem arcRemoveAll_p (l : List ElemRef) :
    ∀ (s s' : ArcCache), arcRemoveAll s l = some s' →
    s'.p = s.p ∧ s'.maxEntries = s.maxEntries := by
  induction l with
  | nil =>
    intro s s' h
    simp only [arcRemoveAll, Option.some.injEq] at h
    subst h
    exact ⟨rfl, rfl⟩
  | cons e t ih =>
    intro s s' h
    simp only [arcRemoveAll] at h
    cases hre : arcRemoveElement s e ExpirationEvent with
    | none => simp only [hre] at h; exact Option.noConfusion h
    | some s1 =>
      simp only [hre] at h
      obtain ⟨h1, h2⟩ := arcRemoveElement_p s s1 e ExpirationEvent hre
      obtain ⟨h3, h4⟩ := ih s1 s' h
      exact ⟨h3.trans h1, h4.trans h2⟩

theorem arcMax_one_le (d : Int) : 1 ≤ arcMax 1 d := by
  unfold arcMax; split <;> omega

theorem arcMin_clamp_up (p x mx : Int) (h0 : 0 ≤ p) (hpm : p ≤ mx) (hx : 0 ≤ x) :
    p ≤ arcMin (p + x) mx ∧ 0 ≤ arcMin (p + x) mx ∧ arcMin (p + x) mx ≤ mx := by
  unfold arcMin; split <;> omega

theorem arcMax_clamp_down (p x mx : Int) (h0 : 0 ≤ p) (hpm : p ≤ mx) (hx : 0 ≤ x) :
    arcMax (p - x) 0 ≤ p ∧ 0 ≤ arcMax (p - x) 0 ∧ arcMax (p - x) 0 ≤ mx := by
  unfold arcMax; split <;> omega

theorem arcMax_one_nonneg (d : Int) : 0 ≤ arcMax 1 d :=
  le_trans zero_le_one (arcMax_one_le d)

theorem arcSetGhost_inv (s s1 : ArcCache) (k : Nat) (hinv : ArcInv s)
    (h : arcSetGhost s k = some s1) : ArcInv s1 ∧ s1.maxEntries = s.maxEntries := by
  obtain ⟨hm, hp0, hpm⟩ := hinv
  unfold arcSetGhost at h
  dsimp only at h
  by_cases hg1 : (arcCheckGhost s s.b1 k).1 = true
  · rw [if_pos hg1] at h
    split at h <;> obtain ⟨hq, hqm⟩ := arcReplace_p _ _ h
    · refine ⟨⟨by rw [hqm]; exact hm, ?_, ?_⟩, hqm.trans rfl⟩
      · rw [hq]
        exact (arcMin_clamp_up s.p _ s.maxEntries hp0 hpm (arcMax_one_nonneg _)).2.1
      · rw [hq, hqm]
        exact (arcMin_clamp_up s.p _ s.maxEntries hp0 hpm (arcMax_one_nonneg _)).2.2
    · refine ⟨⟨by rw [hqm]; exact hm, ?_, ?_⟩, hqm.trans rfl⟩
      · rw [hq]
        exact (arcMin_clamp_up s.p 1 s.maxEntries hp0 hpm (by omega)).2.1
      · rw [hq, hqm]
        exact (arcMin_clamp_up s.p 1 s.maxEntries hp0 hpm (by omega)).2.2
  · rw [if_neg hg1] at h
    by_cases hg2 : (arcCheckGhost { s with b1 := (arcCheckGhost s s.b1 k).2 } s.b2 k).1 = true
    · rw [if_pos hg2] at h
      split at h <;> obtain ⟨hq, hqm⟩ := arcReplace_p _ _ h
      · refine ⟨⟨by rw [hqm]; exact hm, ?_, ?_⟩, hqm.trans rfl⟩
        · rw [hq]
          exact (arcMax_clamp_down s.p _ s.maxEntries hp0 hpm (arcMax_one_nonneg _)).2.1
        · rw [hq, hqm]
          exact (arcMax_clamp_down s.p _ s.maxEntries hp0 hpm (arcMax_one_nonneg _)).2.2
      · refine ⟨⟨by rw [hqm]; exact hm, ?_, ?_⟩, hqm.trans rfl⟩
        · rw [hq]
          exact (arcMax_clamp_down s.p 1 s.maxEntries hp0 hpm (by omega)).2.1
        · rw [hq, hqm]
          exact (arcMax_clamp_down s.p 1 s.maxEntries hp0 hpm (by omega)).2.2
    · rw [if_neg hg2] at h
      simp only [Option.some.injEq] at h
      subst h
      exact ⟨⟨hm, hp0, hpm⟩, rfl⟩

theorem arcSetGhost_b1_mono (s s1 : ArcCache) (k : Nat) (hinv : ArcInv s)
    (hg1 : (arcCheckGhost s s.b1 k).1 = true)
    (h : arcSetGhost s k = some s1) : s.p ≤ s1.p := by
  obtain ⟨hm, hp0, hpm⟩ := hinv
  unfold arcSetGhost at h
  dsimp only at h
  rw [if_pos hg1] at h
  split at h <;> obtain ⟨hq, _⟩ := arcReplace_p _ _ h <;> rw [hq]
  · exact (arcMin_clamp_up s.p _ s.maxEntries hp0 hpm (arcMax_one_nonneg _)).1
  · exact (arcMin_clamp_up s.p 1 s.maxEntries hp0 hpm (by omega)).1

theorem arcSetGhost_b2_antitone (s s1 : ArcCache) (k : Nat) (hinv : ArcInv s)
    (hg1 : (arcCheckGhost s s.b1 k).1 = false)
    (hg2 : (arcCheckGhost { s with b1 := (arcCheckGhost s s.b1 k).2 } s.b2 k).1 = true)
    (h : arcSetGhost s k = some s1) : s1.p ≤ s.p := by
  obtain ⟨hm, hp0, hpm⟩ := hinv
  unfold arcSetGhost at h
  dsimp only at h
  rw [if_neg (by rw [hg1]; exact Bool.false_ne_true), if_pos hg2] at h
  split at h <;> obtain ⟨hq, _⟩ := arcReplace_p _ _ h <;> rw [hq]
  · exact (arcMax_clamp_down s.p _ s.maxEntries hp0 hpm (arcMax_one_nonneg _)).1
  · exact (arcMax_clamp_down s.p 1 s.maxEntries hp0 hpm (by omega)).1

theorem arcSetInsert_p (s1 s' : ArcCache) (k v : Nat) (exp : Int)
    (h : arcSetInsert s1 k v exp = some s') :
    s'.p = s1.p ∧ s'.maxEntries = s1.maxEntries := by
  unfold arcSetInsert at h
  dsimp only at h
  split at h
  · obtain ⟨h1, h2⟩ := arcEvict_p _ _ h
    exact ⟨h1, h2⟩
  · simp only [Option.some.injEq] at h
    subst h
    exact ⟨rfl, rfl⟩

theorem arcSet_inv (s s' : ArcCache) (k v : Nat) (dur now : Int) (hinv : ArcInv s)
    (h : arcSet s k v dur now = some s') : ArcInv s' ∧ s'.maxEntries = s.maxEntries := by
  unfold arcSet at h
  cases hm : lookupA s.emap k with
  | some ele =>
    simp only [hm] at h
    cases he : lookupA s.ents ele.ent with
    | none => simp only [he] at h; exact Option.noConfusion h
    | some ent0 =>
      simp only [he, listRemove, Option.isSome_some, if_true, Option.some.injEq] at h
      subst h
      exact ⟨hinv, rfl⟩
  | none =>
    simp only [hm] at h
    cases hgh : arcSetGhost s k with
    | none => rw [hgh] at h; exact Option.noConfusion h
    | some s1 =>
      rw [hgh, Option.some_bind] at h
      obtain ⟨hinv1, hmax1⟩ := arcSetGhost_inv s s1 k hinv hgh
      obtain ⟨hp, hmax2⟩ := arcSetInsert_p s1 s' k v _ h
      obtain ⟨a1, a2, a3⟩ := hinv1
      refine ⟨⟨?_, ?_, ?_⟩, ?_⟩ <;> omega

theorem arcGet_inv (s s' : ArcCache) (k : Nat) (now : Int) (r : Option Nat)
    (hinv : ArcInv s) (h : arcGet s k now = some (r, s')) :
    ArcInv s' ∧ s'.maxEntries = s.maxEntries := by
  obtain ⟨hm0, hp0, hpm⟩ := hinv
  unfold arcGet at h
  cases hm : lookupA s.emap k with
  | some ele =>
    simp only [hm] at h
    cases he : lookupA s.ents ele.ent with
    | none => simp only [he] at h; exact Option.noConfusion h
    | some ent =>
      simp only [he] at h
      split at h
      · cases hre : arcRemoveElement s ele ExpirationEvent with
        | none => rw [hre] at h; exact Option.noConfusion h
        | some s2 =>
          rw [hre] at h
          simp at h
          obtain ⟨_, h2⟩ := h
          subst h2
          obtain ⟨hq, hqm⟩ := arcRemoveElement_p s s2 ele ExpirationEvent hre
          exact ⟨⟨by omega, by omega, by omega⟩, hqm⟩
      · simp [listRemove] at h
        obtain ⟨_, h2⟩ := h
        subst h2
        exact ⟨⟨hm0, hp0, hpm⟩, rfl⟩
  | none =>
    simp only [hm] at h
    by_cases hg1 : (arcCheckGhost s s.b1 k).1 = true
    · rw [if_pos hg1] at h
      split at h <;>
        (simp only [Option.some.injEq, Prod.mk.injEq] at h
         obtain ⟨_, h2⟩ := h
         subst h2)
      · refine ⟨⟨hm0, ?_, ?_⟩, rfl⟩
        · exact (arcMin_clamp_up s.p _ s.maxEntries hp0 hpm (arcMax_one_nonneg _)).2.1
        · exact (arcMin_clamp_up s.p _ s.maxEntries hp0 hpm (arcMax_one_nonneg _)).2.2
      · refine ⟨⟨hm0, ?_, ?_⟩, rfl⟩
        · exact (arcMin_clamp_up s.p 1 s.maxEntries hp0 hpm (by omega)).2.1
        · exact (arcMin_clamp_up s.p 1 s.maxEntries hp0 hpm (by omega)).2.2
    · rw [if_neg hg1] at h
      by_cases hg2 : (arcCheckGhost { s with b1 := (arcCheckGhost s s.b1 k).2 } s.b2 k).1 = true
      · rw [if_pos hg2] at h
        split at h <;>
          (simp only [Option.some.injEq, Prod.mk.injEq] at h
           obtain ⟨_, h2⟩ := h
           subst h2)
        · refine ⟨⟨hm0, ?_, ?_⟩, rfl⟩
          · exact (arcMax_clamp_down s.p _ s.maxEntries hp0 hpm (arcMax_one_nonneg _)).2.1
          · exact (arcMax_clamp_down s.p _ s.maxEntries hp0 hpm (arcMax_one_nonneg _)).2.2
        · refine ⟨⟨hm0, ?_, ?_⟩, rfl⟩
          · exact (arcMax_clamp_down s.p 1 s.maxEntries hp0 hpm (by omega)).2.1
          · exact (arcMax_clamp_down s.p 1 s.maxEntries hp0 hpm (by omega)).2.2
      · rw [if_neg hg2] at h
        simp only [Option.some.injEq, Prod.mk.injEq] at h
        obtain ⟨_, h2⟩ := h
        subst h2
        exact ⟨⟨hm0, hp0, hpm⟩, rfl⟩

theorem arcClear_inv (s : ArcCache) (hinv : ArcInv s) :
    ArcInv (arcClear s) ∧ (arcClear s).maxEntries = s.maxEntries := by
  by_cases hh : s.onEvicted.isSome <;>
    exact ⟨⟨by simp [arcClear, hh]; exact hinv.1, by simp [arcClear, hh],
      by simp [arcClear, hh]; exact hinv.1⟩, by simp [arcClear, hh]⟩

theorem arcClose_inv (s s' : ArcCache) (hinv : ArcInv s) (h : arcClose s = some s') :
    ArcInv s' ∧ s'.maxEntries = s.maxEntries := by
  unfold arcClose at h
  cases hc : s.stopChan with
  | none =>
    rw [hc] at h
    simp at h
    subst h
    exact arcClear_inv _ ⟨hinv.1, hinv.2.1, hinv.2.2⟩
  | some c =>
    rw [hc] at h
    cases c with
    | opened =>
      simp [closeChan] at h
      subst h
      exact arcClear_inv _ ⟨hinv.1, hinv.2.1, hinv.2.2⟩
    | closedCh =>
      simp [closeChan] at h

theorem arcCleanup_inv (s s' : ArcCache) (now : Int) (hinv : ArcInv s)
    (h : arcCleanup s now = some s') : ArcInv s' ∧ s'.maxEntries = s.maxEntries := by
  unfold arcCleanup at h
  split at h
  · simp only [Option.some.injEq] at h
    subst h
    exact ⟨hinv, rfl⟩
  · obtain ⟨h1, h2⟩ := arcRemoveAll_p _ s s' h
    exact ⟨⟨by rw [h2]; exact hinv.1, by rw [h1]; exact hinv.2.1,
      by rw [h1, h2]; exact hinv.2.2⟩, h2⟩

theorem arcStep_inv (s s' : ArcCache) (op : ArcOp) (hinv : ArcInv s)
    (h : arcStep s op = some s') : ArcInv s' ∧ s'.maxEntries = s.maxEntries := by
  cases op with
  | set k v dur now => exact arcSet_inv s s' k v dur now hinv h
  | get k now =>
    simp only [arcStep] at h
    cases hre : arcGet s k now with
    | none => rw [hre] at h; exact Option.noConfusion h
    | some pr =>
      rw [hre] at h
      simp at h
      subst h
      exact arcGet_inv s pr.2 k now pr.1 hinv (by rw [hre])
  | clear =>
    simp only [arcStep, Option.some.injEq] at h
    subst h
    exact arcClear_inv s hinv
  | close => exact arcClose_inv s s' hinv h
  | setEvicted f =>
    simp only [arcStep, arcSetEvictedFunc, Option.some.injEq] at h
    subst h
    exact ⟨⟨hinv.1, hinv.2.1, hinv.2.2⟩, rfl⟩
  | setTTL t =>
    simp only [arcStep, arcSetDefaultTTL, Option.some.injEq] at h
    subst h
    exact ⟨⟨hinv.1, hinv.2.1, hinv.2.2⟩, rfl⟩
  | cleanup now => exact arcCleanup_inv s s' now hinv h

theorem arcRun_inv (ops : List ArcOp) :
    ∀ (s s' : ArcCache), ArcInv s → arcRun s ops = some s' →
    ArcInv s' ∧ s'.maxEntries = s.maxEntries := by
  induction ops with
  | nil =>
    intro s s' hinv h
    simp only [arcRun, Option.some.injEq] at h
    subst h
    exact ⟨hinv, rfl⟩
  | cons op t ih =>
    intro s s' hinv h
    simp only [arcRun] at h
    cases hst : arcStep s op with
    | none => rw [hst] at h; exact Option.noConfusion h
    | some s1 =>
      rw [hst] at h
      obtain ⟨hinv1, hm1⟩ := arcStep_inv s s1 op hinv hst
      obtain ⟨hinv2, hm2⟩ := ih s1 s' hinv1 h
      exact ⟨hinv2, hm2.trans hm1⟩

theorem arcGet_b1_mono (s s' : ArcCache) (k : Nat) (now : Int) (r : Option Nat)
    (hinv : ArcInv s) (hmiss : lookupA s.emap k = none)
    (hg1 : (arcCheckGhost s s.b1 k).1 = true)
    (h : arcGet s k now = some (r, s')) : s.p ≤ s'.p := by
  obtain ⟨hm0, hp0, hpm⟩ := hinv
  unfold arcGet at h
  simp only [hmiss] at h
  rw [if_pos hg1] at h
  split at h <;>
    (simp only [Option.some.injEq, Prod.mk.injEq] at h
     obtain ⟨_, h2⟩ := h
     subst h2)
  · exact (arcMin_clamp_up s.p _ s.maxEntries hp0 hpm (arcMax_one_nonneg _)).1
  · exact (arcMin_clamp_up s.p 1 s.maxEntries hp0 hpm (by omega)).1

theorem arcGet_b2_antitone (s s' : ArcCache) (k : Nat) (now : Int) (r : Option Nat)
    (hinv : ArcInv s) (hmiss : lookupA s.emap k = none)
    (hg1 : (arcCheckGhost s s.b1 k).1 = false)
    (hg2 : (arcCheckGhost { s with b1 := (arcCheckGhost s s.b1 k).2 } s.b2 k).1 = true)
    (h : arcGet s k now = some (r, s')) : s'.p ≤ s.p := by
  obtain ⟨hm0, hp0, hpm⟩ := hinv
  unfold arcGet at h
  simp only [hmiss] at h
  rw [if_neg (by rw [hg1]; exact Bool.false_ne_true), if_pos hg2] at h
  split at h <;>
    (simp only [Option.some.injEq, Prod.mk.injEq] at h
     obtain ⟨_, h2⟩ := h
     subst h2)
  · exact (arcMax_clamp_down s.p _ s.maxEntries hp0 hpm (arcMax_one_nonneg _)).1
  · exact (arcMax_clamp_down s.p 1 s.maxEntries hp0 hpm (by omega)).1

theorem arcSet_b1_mono (s s' : ArcCache) (k v : Nat) (dur now : Int)
    (hinv : ArcInv s) (hmiss : lookupA s.emap k = none)
    (hg1 : (arcCheckGhost s s.b1 k).1 = true)
    (h : arcSet s k v dur now = some s') : s.p ≤ s'.p := by
  unfold arcSet at h
  simp only [hmiss] at h
  cases hgh : arcSetGhost s k with
  | none => rw [hgh] at h; exact Option.noConfusion h
  | some s1 =>
    rw [hgh, Option.some_bind] at h
    have h1 := arcSetGhost_b1_mono s s1 k hinv hg1 hgh
    obtain ⟨h2, _⟩ := arcSetInsert_p s1 s' k v _ h
    omega

theorem arcSet_b2_antitone (s s' : ArcCache) (k v : Nat) (dur now : Int)
    (hinv : ArcInv s) (hmiss : lookupA s.emap k = none)
    (hg1 : (arcCheckGhost s s.b1 k).1 = false)
    (hg2 : (arcCheckGhost { s with b1 := (arcCheckGhost s s.b1 k).2 } s.b2 k).1 = true)
    (h : arcSet s k v dur now = some s') : s'.p ≤ s.p := by
  unfold arcSet at h
  simp only [hmiss] at h
  cases hgh : arcSetGhost s k with
  | none => rw [hgh] at h; exact Option.noConfusion h
  | some s1 =>
    rw [hgh, Option.some_bind] at h
    have h1 := arcSetGhost_b2_antitone s s1 k hinv hg1 hg2 hgh
    obtain ⟨h2, _⟩ := arcSetInsert_p s1 s' k v _ h
    omega

/-- C5: on every cache reachable from arc.New by any sequence of operations
the adaptation target p stays within [0, maxEntries], and on any state
satisfying that invariant a ghost hit in B1 (during Get or Set of a key
found in B1) never decreases p while a ghost hit in B2 never increases p. -/
theorem C5_arc_p_bounds_and_ghost_monotonicity :
    (∀ (me ci : Int) (ops : List ArcOp) (s : ArcCache), 0 ≤ me →
        arcRun (arcNew me ci) ops = some s → 0 ≤ s.p ∧ s.p ≤ me) ∧
    (∀ (s s' : ArcCache) (k : Nat) (now : Int) (r : Option Nat), ArcInv s →
        lookupA s.emap k = none → (arcCheckGhost s s.b1 k).1 = true →
        arcGet s k now = some (r, s') → s.p ≤ s'.p) ∧
    (∀ (s s' : ArcCache) (k : Nat) (now : Int) (r : Option Nat), ArcInv s →
        lookupA s.emap k = none → (arcCheckGhost s s.b1 k).1 = false →
        (arcCheckGhost { s with b1 := (arcCheckGhost s s.b1 k).2 } s.b2 k).1 = true →
        arcGet s k now = some (r, s') → s'.p ≤ s.p) ∧
    (∀ (s s' : ArcCache) (k v : Nat) (dur now : Int), ArcInv s →
        lookupA s.emap k = none → (arcCheckGhost s s.b1 k).1 = true →
        arcSet s k v dur now = some s' → s.p ≤ s'.p) ∧
    (∀ (s s' : ArcCache) (k v : Nat) (dur now : Int), ArcInv s →
        lookupA s.emap k = none → (arcCheckGhost s s.b1 k).1 = false →
        (arcCheckGhost { s with b1 := (arcCheckGhost s s.b1 k).2 } s.b2 k).1 = true →
        arcSet s k v dur now = some s' → s'.p ≤ s.p) := by
  refine ⟨?_, ?_, ?_, ?_, ?_⟩
  · intro me ci ops s hme h
    obtain ⟨⟨_, h1, h2⟩, h3⟩ := arcRun_inv ops (arcNew me ci) s ⟨hme, le_refl 0, hme⟩ h
    rw [h3] at h2
    exact ⟨h1, h2⟩
  · exact fun s s' k now r hinv hm hg h => arcGet_b1_mono s s' k now r hinv hm hg h
  · exact fun s s' k now r hinv hm hg1 hg2 h =>
      arcGet_b2_antitone s s' k now r hinv hm hg1 hg2 h
  · exact fun s s' k v dur now hinv hm hg h => arcSet_b1_mono s s' k v dur now hinv hm hg h
  · exact fun s s' k v dur now hinv hm hg1 hg2 h =>
      arcSet_b2_antitone s s' k v dur now hinv hm hg1 hg2 h

/-- Witness for C5: the empty run from arc.New, plus a ghost hit in B1 and
one in B2 on small concrete states (a live T1 entry keeps replace from
faulting in the Set cases). -/
theorem C5_arc_p_bounds_and_ghost_monotonicity_witness :
    (0 ≤ (arcNew 2 0).p ∧ (arcNew 2 0).p ≤ 2) ∧
    ({ arcNew 2 0 with b1 := [{ id := 0, ent := 0 }], t1 := [{ id := 1, ent := 1 }], ents := [(0, { key := 1, value := 7, expiration := 0 }), (1, { key := 5, value := 8, expiration := 0 })] } : ArcCache).p ≤
      (((arcGet { arcNew 2 0 with b1 := [{ id := 0, ent := 0 }], t1 := [{ id := 1, ent := 1 }], ents := [(0, { key := 1, value := 7, expiration := 0 }), (1, { key := 5, value := 8, expiration := 0 })] } 1 0).getD (none, arcNew 0 0)).2).p ∧
    (((arcGet { arcNew 2 0 with b2 := [{ id := 0, ent := 0 }], t1 := [{ id := 1, ent := 1 }], ents := [(0, { key := 1, value := 7, expiration := 0 }), (1, { key := 5, value := 8, expiration := 0 })] } 1 0).getD (none, arcNew 0 0)).2).p ≤
      ({ arcNew 2 0 with b2 := [{ id := 0, ent := 0 }], t1 := [{ id := 1, ent := 1 }], ents := [(0, { key := 1, value := 7, expiration := 0 }), (1, { key := 5, value := 8, expiration := 0 })] } : ArcCache).p ∧
    ({ arcNew 2 0 with b1 := [{ id := 0, ent := 0 }], t1 := [{ id := 1, ent := 1 }], ents := [(0, { key := 1, value := 7, expiration := 0 }), (1, { key := 5, value := 8, expiration := 0 })] } : ArcCache).p ≤
      ((arcSet { arcNew 2 0 with b1 := [{ id := 0, ent := 0 }], t1 := [{ id := 1, ent := 1 }], ents := [(0, { key := 1, value := 7, expiration := 0 }), (1, { key := 5, value := 8, expiration := 0 })] } 1 9 0 0).getD (arcNew 0 0)).p ∧
    ((arcSet { arcNew 2 0 with b2 := [{ id := 0, ent := 0 }], t1 := [{ id := 1, ent := 1 }], ents := [(0, { key := 1, value := 7, expiration := 0 }), (1, { key := 5, value := 8, expiration := 0 })] } 1 9 0 0).getD (arcNew 0 0)).p ≤
      ({ arcNew 2 0 with b2 := [{ id := 0, ent := 0 }], t1 := [{ id := 1, ent := 1 }], ents := [(0, { key := 1, value := 7, expiration := 0 }), (1, { key := 5, value := 8, expiration := 0 })] } : ArcCache).p :=
  ⟨C5_arc_p_bounds_and_ghost_monotonicity.1 2 0 [] (arcNew 2 0) (by decide) rfl,
   C5_arc_p_bounds_and_ghost_monotonicity.2.1 _ _ 1 0
     ((arcGet { arcNew 2 0 with b1 := [{ id := 0, ent := 0 }], t1 := [{ id := 1, ent := 1 }], ents := [(0, { key := 1, value := 7, expiration := 0 }), (1, { key := 5, value := 8, expiration := 0 })] } 1 0).getD (none, arcNew 0 0)).1
     ⟨by decide, by decide, by decide⟩ rfl (by decide) (by decide),
   C5_arc_p_bounds_and_ghost_monotonicity.2.2.1 _ _ 1 0
     ((arcGet { arcNew 2 0 with b2 := [{ id := 0, ent := 0 }], t1 := [{ id := 1, ent := 1 }], ents := [(0, { key := 1, value := 7, expiration := 0 }), (1, { key := 5, value := 8, expiration := 0 })] } 1 0).getD (none, arcNew 0 0)).1
     ⟨by decide, by decide, by decide⟩ rfl (by decide) (by decide) (by decide),
   C5_arc_p_bounds_and_ghost_monotonicity.2.2.2.1 _ _ 1 9 0 0
     ⟨by decide, by decide, by decide⟩ rfl (by decide) (by decide),
   C5_arc_p_bounds_and_ghost_monotonicity.2.2.2.2 _ _ 1 9 0 0
     ⟨by decide, by decide, by decide⟩ rfl (by decide) (by decide) (by decide)⟩
